import Mathlib

/-!
# Verification of the Athena Protocol configuration / file-reading core

Shallow embedding of the provider-configuration resolution engine and the
targeted multi-file reading subsystem (config-manager.ts, unified-read-files
section, env-provider module, thinking-validator targeted analysis), with
proofs of the testable properties stated in the specification.

Machine integers and JS `number` timestamps are modelled as `ℤ`; JS strings are
modelled as `String` (or `List Char` where character-level chunking matters);
`undefined`/missing values are modelled as `Option`.
-/

set_option maxRecDepth 4000

namespace AthenaProtocol

/-- A snapshot of a string-keyed environment: `none` models JS `undefined`. -/
def EnvMap : Type := String → Option String

/-! ## Environment provider chain (env-provider module)

`EnvironmentProvider` has `get`, `has` and `getAll`.  For each of the three
concrete providers composed by `TripleMergedEnvProvider` (`ProcessEnvProvider`,
`DotenvProvider` used for both the caller-supplied MCP vars and the `.env`
file), `getAll()` returns exactly the mapping that `get` reads (the process
provider filters `undefined` entries out of `getAll`, which is the same
filtering `get` performs).  A provider is therefore modelled by that single
mapping, and a JS record by the function sending a key to its value. -/

structure EnvironmentProvider where
  get : String → Option String

/-- JS object spread `{...base, ...over}`: keys of `over` win. -/
def recordSpread (base over : String → Option String) : String → Option String :=
  fun k => (over k).orElse fun _ => base k

/-- `TripleMergedEnvProvider.get` (env-provider module): MCP env `??` dotenv
`??` process env. -/
def TripleMergedEnvProvider.get
    (mcpEnv dotenvEnv processEnv : EnvironmentProvider) (key : String) :
    Option String :=
  (mcpEnv.get key).orElse fun _ =>
    (dotenvEnv.get key).orElse fun _ => processEnv.get key

/-- `TripleMergedEnvProvider.getAll` (env-provider module): the spread
`{...processEnv.getAll(), ...dotenvEnv.getAll(), ...mcpEnv.getAll()}`. -/
def TripleMergedEnvProvider.getAll
    (mcpEnv dotenvEnv processEnv : EnvironmentProvider) :
    String → Option String :=
  recordSpread (recordSpread processEnv.get dotenvEnv.get) mcpEnv.get

/-- C1: for a key set in all three sources the merged `get` returns the
caller-supplied (MCP) value; for a key set only in the file-based and process
sources it returns the file-based value; and `getAll` agrees with `get` on
every key present in at least one source. -/
theorem tripleMergedEnv_precedence
    (mcp dot prc : EnvironmentProvider) (k1 k2 : String)
    (a b c b2 c2 : String)
    (h1a : mcp.get k1 = some a) (h1b : dot.get k1 = some b)
    (h1c : prc.get k1 = some c)
    (h2a : mcp.get k2 = none) (h2b : dot.get k2 = some b2)
    (h2c : prc.get k2 = some c2) :
    TripleMergedEnvProvider.get mcp dot prc k1 = some a ∧
    TripleMergedEnvProvider.get mcp dot prc k2 = some b2 ∧
    ∀ k, ((mcp.get k).isSome ∨ (dot.get k).isSome ∨ (prc.get k).isSome) →
      TripleMergedEnvProvider.getAll mcp dot prc k =
        TripleMergedEnvProvider.get mcp dot prc k := by
  refine ⟨?_, ?_, ?_⟩
  · simp [TripleMergedEnvProvider.get, h1a, Option.orElse]
  · simp [TripleMergedEnvProvider.get, h2a, h2b, Option.orElse]
  · intro k _
    unfold TripleMergedEnvProvider.getAll TripleMergedEnvProvider.get recordSpread
    cases hm : mcp.get k <;> cases hd : dot.get k <;>
      simp [Option.orElse, hm, hd]

/-- Witness for `tripleMergedEnv_precedence` at a concrete three-source
environment. -/
theorem tripleMergedEnv_precedence_witness :
    TripleMergedEnvProvider.get
      ⟨fun k => if k = "K1" then some "mcp1" else none⟩
      ⟨fun k => if k = "K1" then some "dot1" else if k = "K2" then some "dot2" else none⟩
      ⟨fun k => if k = "K1" then some "prc1" else if k = "K2" then some "prc2" else none⟩
      "K1" = some "mcp1" ∧
    TripleMergedEnvProvider.get
      ⟨fun k => if k = "K1" then some "mcp1" else none⟩
      ⟨fun k => if k = "K1" then some "dot1" else if k = "K2" then some "dot2" else none⟩
      ⟨fun k => if k = "K1" then some "prc1" else if k = "K2" then some "prc2" else none⟩
      "K2" = some "dot2" ∧
    ∀ k, ((EnvironmentProvider.get ⟨fun k => if k = "K1" then some "mcp1" else none⟩ k).isSome ∨
          (EnvironmentProvider.get ⟨fun k => if k = "K1" then some "dot1" else if k = "K2" then some "dot2" else none⟩ k).isSome ∨
          (EnvironmentProvider.get ⟨fun k => if k = "K1" then some "prc1" else if k = "K2" then some "prc2" else none⟩ k).isSome) →
      TripleMergedEnvProvider.getAll
        ⟨fun k => if k = "K1" then some "mcp1" else none⟩
        ⟨fun k => if k = "K1" then some "dot1" else if k = "K2" then some "dot2" else none⟩
        ⟨fun k => if k = "K1" then some "prc1" else if k = "K2" then some "prc2" else none⟩
        k =
      TripleMergedEnvProvider.get
        ⟨fun k => if k = "K1" then some "mcp1" else none⟩
        ⟨fun k => if k = "K1" then some "dot1" else if k = "K2" then some "dot2" else none⟩
        ⟨fun k => if k = "K1" then some "prc1" else if k = "K2" then some "prc2" else none⟩
        k :=
  tripleMergedEnv_precedence _ _ _ "K1" "K2" "mcp1" "dot1" "prc1" "dot2" "prc2"
    rfl rfl rfl rfl rfl rfl

/-! ## The unified environment cache (`EnvironmentCache`, config-manager.ts)

A cache entry stores `{value, timestamp, ttl}` where the stored ttl is
`ttl ?? this.defaultTTL ?? Infinity`; `none` models `Infinity` (for which the
JS comparison `now - timestamp > Infinity` is always false).  Timestamps are
`Date.now()` values, modelled as `ℤ`. -/

structure CacheEntry (α : Type) where
  value : α
  timestamp : ℤ
  ttl : Option ℤ

/-- The `Map`-backed store of `EnvironmentCache.cache`. -/
def CacheMap (α : Type) : Type := String → Option (CacheEntry α)

/-- `EnvironmentCache.set` (config-manager.ts lines 90-96):
`ttl: ttl ?? this.defaultTTL ?? Infinity`. -/
def cacheSet {α : Type} (m : CacheMap α) (key : String) (value : α)
    (now : ℤ) (ttl defaultTTL : Option ℤ) : CacheMap α :=
  fun k => if k = key then some ⟨value, now, ttl.orElse fun _ => defaultTTL⟩ else m k

/-- The lazy-expiry test `now - entry.timestamp > effectiveTTL`; `none` is
`Infinity`, for which the comparison is false. -/
def ttlElapsed (elapsed : ℤ) : Option ℤ → Bool
  | none => false
  | some t => decide (t < elapsed)

/-- `EnvironmentCache.get` (config-manager.ts lines 74-88): lazy expiration,
deleting and returning `undefined` when `now - entry.timestamp` exceeds the
call-site ttl override `??` the entry's stored ttl.  Returns the read result
together with the store after the lazy deletion. -/
def cacheGet {α : Type} (m : CacheMap α) (now : ℤ) (key : String)
    (ttl : Option ℤ) : Option α × CacheMap α :=
  match m key with
  | none => (none, m)
  | some entry =>
    let effectiveTTL := ttl.orElse fun _ => entry.ttl
    if ttlElapsed (now - entry.timestamp) effectiveTTL then
      (none, fun k => if k = key then none else m k)
    else
      (some entry.value, m)

/-- C5: a value stored with finite ttl `T` is returned unchanged by every read
with `now - ts < T`, is absent for every read with `now - ts > T`, is (the
implementation-defined but deterministic boundary choice) still returned at
`now - ts = T`, and a second read at the same instant always repeats the first
read's outcome. -/
theorem cache_ttl_semantics {α : Type} (m : CacheMap α) (key : String) (v : α)
    (ts T now : ℤ) (defaultTTL : Option ℤ)
    (hT : 0 ≤ T) :
    (now - ts < T → (cacheGet (cacheSet m key v ts (some T) defaultTTL) now key none).1 = some v) ∧
    (now - ts > T → (cacheGet (cacheSet m key v ts (some T) defaultTTL) now key none).1 = none) ∧
    (now - ts = T → (cacheGet (cacheSet m key v ts (some T) defaultTTL) now key none).1 = some v) ∧
    (∀ now' : ℤ,
      (cacheGet (cacheGet (cacheSet m key v ts (some T) defaultTTL) now' key none).2 now' key none).1 =
        (cacheGet (cacheSet m key v ts (some T) defaultTTL) now' key none).1) := by
  have hset : cacheSet m key v ts (some T) defaultTTL key = some ⟨v, ts, some T⟩ := by
    simp [cacheSet]
  refine ⟨?_, ?_, ?_, ?_⟩
  · intro h
    simp only [cacheGet, hset, ttlElapsed, Option.orElse]
    rw [if_neg]
    simp only [decide_eq_true_eq]
    omega
  · intro h
    simp only [cacheGet, hset, ttlElapsed, Option.orElse]
    rw [if_pos]
    simp only [decide_eq_true_eq]
    omega
  · intro h
    simp only [cacheGet, hset, ttlElapsed, Option.orElse]
    rw [if_neg]
    simp only [decide_eq_true_eq]
    omega
  · intro now'
    by_cases h : T < now' - ts
    · have h1 : (cacheGet (cacheSet m key v ts (some T) defaultTTL) now' key none) =
        (none, fun k => if k = key then none else cacheSet m key v ts (some T) defaultTTL k) := by
        simp only [cacheGet, hset, ttlElapsed, Option.orElse]
        rw [if_pos]
        simpa using h
      rw [h1]
      simp [cacheGet]
    · have h1 : (cacheGet (cacheSet m key v ts (some T) defaultTTL) now' key none) =
        (some v, cacheSet m key v ts (some T) defaultTTL) := by
        simp only [cacheGet, hset, ttlElapsed, Option.orElse]
        rw [if_neg]
        simpa using h
      rw [h1]
      simp only [cacheGet, hset, ttlElapsed, Option.orElse]
      rw [if_neg]
      simpa using h

/-- Witness for `cache_ttl_semantics`: ttl 30, reads at elapsed 10, 40 and 30. -/
theorem cache_ttl_semantics_witness :
    ((100 : ℤ) + 10 - 100 < 30 →
      (cacheGet (cacheSet (fun _ => (none : Option (CacheEntry ℕ))) "env_K" 7 100 (some 30) none) (100 + 10) "env_K" none).1 = some 7) ∧
    ((100 : ℤ) + 10 - 100 > 30 →
      (cacheGet (cacheSet (fun _ => (none : Option (CacheEntry ℕ))) "env_K" 7 100 (some 30) none) (100 + 10) "env_K" none).1 = none) ∧
    ((100 : ℤ) + 10 - 100 = 30 →
      (cacheGet (cacheSet (fun _ => (none : Option (CacheEntry ℕ))) "env_K" 7 100 (some 30) none) (100 + 10) "env_K" none).1 = some 7) ∧
    (∀ now' : ℤ,
      (cacheGet (cacheGet (cacheSet (fun _ => (none : Option (CacheEntry ℕ))) "env_K" 7 100 (some 30) none) now' "env_K" none).2 now' "env_K" none).1 =
        (cacheGet (cacheSet (fun _ => (none : Option (CacheEntry ℕ))) "env_K" 7 100 (some 30) none) now' "env_K" none).1) :=
  cache_ttl_semantics (fun _ => none) "env_K" 7 100 30 (100 + 10) none (by norm_num)

/-! ## `getOrCompute` single-flight deduplication

Node's event loop is single threaded: the synchronous body of `getOrCompute`
(cache check, in-flight check, synchronous invocation of the resolver through
`Promise.resolve(resolver())`, and registration of the new promise in the
in-flight map) runs atomically, and the `.then` handlers run only in a later
microtask.  N "concurrent" calls arriving before the computation settles are
therefore N back-to-back atomic executions of that body, and settlement of the
promise is a separate later step.  The state machine below models exactly
that: `getOrComputeCall` is the synchronous body (config-manager.ts lines
155-187), `promiseSuccess`/`promiseFailure` are the two `.then` handlers
(lines 173-183).  `resolverRuns` counts invocations of the resolver and
`nextPromise` names the promises so that "all callers receive the identical
resolved value" is expressed as: every caller holds the same promise id. -/

structure GoCState (α : Type) where
  cache : CacheMap α
  inFlight : String → Option ℕ
  nextPromise : ℕ
  resolverRuns : ℕ

inductive GoCOutcome (α : Type) where
  | hit (v : α)
  | joined (pid : ℕ)
  | started (pid : ℕ)
  deriving DecidableEq

/-- The synchronous body of `EnvironmentCache.getOrCompute`. -/
def getOrComputeCall {α : Type} (s : GoCState α) (now : ℤ) (key : String)
    (ttl : Option ℤ) : GoCOutcome α × GoCState α :=
  match cacheGet s.cache now key ttl with
  | (some v, m') => (.hit v, { s with cache := m' })
  | (none, m') =>
    match s.inFlight key with
    | some p => (.joined p, { s with cache := m' })
    | none =>
      (.started s.nextPromise,
       { cache := m'
         inFlight := fun k => if k = key then some s.nextPromise else s.inFlight k
         nextPromise := s.nextPromise + 1
         resolverRuns := s.resolverRuns + 1 })

/-- The fulfilled handler: `this.set(key, value, ttl); this.inFlight.delete(key)`. -/
def promiseSuccess {α : Type} (s : GoCState α) (key : String) (v : α)
    (now : ℤ) (ttl defaultTTL : Option ℤ) : GoCState α :=
  { s with
    cache := cacheSet s.cache key v now ttl defaultTTL
    inFlight := fun k => if k = key then none else s.inFlight k }

/-- The rejected handler: `this.inFlight.delete(key); throw error`. -/
def promiseFailure {α : Type} (s : GoCState α) (key : String) : GoCState α :=
  { s with inFlight := fun k => if k = key then none else s.inFlight k }

/-- `n` back-to-back synchronous `getOrCompute` calls for the same key. -/
def fireCalls {α : Type} (s : GoCState α) (now : ℤ) (key : String)
    (ttl : Option ℤ) : ℕ → List (GoCOutcome α) × GoCState α
  | 0 => ([], s)
  | n + 1 =>
    let r := getOrComputeCall s now key ttl
    let rs := fireCalls r.2 now key ttl n
    (r.1 :: rs.1, rs.2)

theorem getOrComputeCall_of_inFlight {α : Type} (s : GoCState α) (now : ℤ)
    (key : String) (ttl : Option ℤ) (p : ℕ)
    (hc : s.cache key = none) (hf : s.inFlight key = some p) :
    getOrComputeCall s now key ttl = (.joined p, s) := by
  simp [getOrComputeCall, cacheGet, hc, hf]

theorem fireCalls_of_inFlight {α : Type} (s : GoCState α) (now : ℤ)
    (key : String) (ttl : Option ℤ) (p : ℕ) (n : ℕ)
    (hc : s.cache key = none) (hf : s.inFlight key = some p) :
    fireCalls s now key ttl n = (List.replicate n (.joined p), s) := by
  induction n with
  | zero => simp [fireCalls]
  | succ n ih =>
    simp [fireCalls, getOrComputeCall_of_inFlight s now key ttl p hc hf, ih,
      List.replicate_succ]

/-- C2: firing `N ≥ 1` concurrent `getOrCompute` calls for the same uncached
key runs the resolver exactly once; every caller receives the same promise
(hence the identical resolved value); the in-flight entry for the key is
removed by the settlement handler on both the success and the failure path;
and after a failure a later call starts the resolver again. -/
theorem getOrCompute_single_flight {α : Type} (s : GoCState α) (now now2 : ℤ)
    (key : String) (ttl ttl2 defaultTTL : Option ℤ) (v : α) (N : ℕ)
    (hc : s.cache key = none) (hf : s.inFlight key = none) (hN : 1 ≤ N) :
    (fireCalls s now key ttl N).2.resolverRuns = s.resolverRuns + 1 ∧
    (fireCalls s now key ttl N).1 =
      .started s.nextPromise :: List.replicate (N - 1) (.joined s.nextPromise) ∧
    (promiseSuccess (fireCalls s now key ttl N).2 key v now2 ttl2 defaultTTL).inFlight key = none ∧
    (promiseFailure (fireCalls s now key ttl N).2 key).inFlight key = none ∧
    (getOrComputeCall (promiseFailure (fireCalls s now key ttl N).2 key) now2 key ttl).2.resolverRuns =
      (fireCalls s now key ttl N).2.resolverRuns + 1 := by
  obtain ⟨n, rfl⟩ : ∃ n, N = n + 1 := ⟨N - 1, by omega⟩
  have hstep : getOrComputeCall s now key ttl =
      (.started s.nextPromise,
       { cache := s.cache
         inFlight := fun k => if k = key then some s.nextPromise else s.inFlight k
         nextPromise := s.nextPromise + 1
         resolverRuns := s.resolverRuns + 1 }) := by
    simp [getOrComputeCall, cacheGet, hc, hf]
  set s1 : GoCState α :=
    { cache := s.cache
      inFlight := fun k => if k = key then some s.nextPromise else s.inFlight k
      nextPromise := s.nextPromise + 1
      resolverRuns := s.resolverRuns + 1 } with hs1
  have hrest : fireCalls s1 now key ttl n =
      (List.replicate n (.joined s.nextPromise), s1) :=
    fireCalls_of_inFlight s1 now key ttl s.nextPromise n (by simpa [hs1] using hc)
      (by simp [hs1])
  have hfire : fireCalls s now key ttl (n + 1) =
      (.started s.nextPromise :: List.replicate n (.joined s.nextPromise), s1) := by
    simp [fireCalls, hstep, hrest]
  refine ⟨?_, ?_, ?_, ?_, ?_⟩
  · rw [hfire]
  · rw [hfire]; simp
  · simp [promiseSuccess]
  · simp [promiseFailure]
  · rw [hfire]
    simp [getOrComputeCall, promiseFailure, cacheGet, hs1, hc]

/-- Witness for `getOrCompute_single_flight`: three concurrent callers on a
fresh cache. -/
theorem getOrCompute_single_flight_witness :
    (fireCalls (α := ℕ) ⟨fun _ => none, fun _ => none, 0, 0⟩ 5 "cfg" none 3).2.resolverRuns = 0 + 1 ∧
    (fireCalls (α := ℕ) ⟨fun _ => none, fun _ => none, 0, 0⟩ 5 "cfg" none 3).1 =
      .started 0 :: List.replicate (3 - 1) (.joined 0) ∧
    (promiseSuccess (fireCalls (α := ℕ) ⟨fun _ => none, fun _ => none, 0, 0⟩ 5 "cfg" none 3).2 "cfg" 42 6 none none).inFlight "cfg" = none ∧
    (promiseFailure (fireCalls (α := ℕ) ⟨fun _ => none, fun _ => none, 0, 0⟩ 5 "cfg" none 3).2 "cfg").inFlight "cfg" = none ∧
    (getOrComputeCall (promiseFailure (fireCalls (α := ℕ) ⟨fun _ => none, fun _ => none, 0, 0⟩ 5 "cfg" none 3).2 "cfg") 6 "cfg" none).2.resolverRuns =
      (fireCalls (α := ℕ) ⟨fun _ => none, fun _ => none, 0, 0⟩ 5 "cfg" none 3).2.resolverRuns + 1 :=
  getOrCompute_single_flight ⟨fun _ => none, fun _ => none, 0, 0⟩ 5 6 "cfg" none none none
    42 3 rfl rfl (by norm_num)

/-! ## Error taxonomy (`ErrorCategory`, `StandardError`, config-manager.ts) -/

inductive ErrorCategory where
  | configuration
  | network
  | authentication
  | authorization
  | rateLimit
  | timeout
  | validation
  | provider
  | notFound
  | conflict
  | unknown
  deriving DecidableEq

/-- `StandardError` (config-manager.ts lines 251-303), restricted to the
fields the resolution engine reads (`troubleshooting`/`timestamp`/`stack` are
human-readable strings the logic never branches on). -/
structure StandardError where
  message : String
  category : ErrorCategory
  code : Option String
  provider : Option String
  deriving DecidableEq

/-- `resolveEnvVariableCached` (config-manager.ts lines 467-480) on a fixed
environment snapshot: the env cache is a read-through cache of `process.env`,
so over one snapshot it is the identity on lookups (`EnvironmentCache` itself
is verified separately by `cache_ttl_semantics` and
`getOrCompute_single_flight`). -/
def resolveEnvVariableCached (env : EnvMap) (key : String) : Option String :=
  env key

/-! ## Structural string helpers

Core's `String.trim` / `String.toUpper` are defined by well-founded recursion
over byte positions and do not reduce inside the kernel, so the JS `trim()` /
`toUpperCase()` used by the resolver are modelled structurally over the
character list (ASCII whitespace and ASCII case, which is all the environment
keys and values of this engine use). -/

def jsWhitespace (c : Char) : Bool :=
  c = ' ' ∨ c = '\t' ∨ c = '\n' ∨ c = '\r'

def jsTrimL (l : List Char) : List Char :=
  ((l.dropWhile jsWhitespace).reverse.dropWhile jsWhitespace).reverse

/-- JS `s.trim()`. -/
def jsTrim (s : String) : String :=
  ⟨jsTrimL s.data⟩

def asciiUpChar (c : Char) : Char :=
  if 'a' ≤ c ∧ c ≤ 'z' then Char.ofNat (c.toNat - 32) else c

/-- JS `s.toUpperCase()`. -/
def toUpperAscii (s : String) : String :=
  ⟨s.data.map asciiUpChar⟩

/-! ## JS `Number(...)` on trimmed environment values

`Number` applied to a trimmed, nonempty decimal numeral (optional sign,
digits, optional fraction, optional decimal exponent) is modelled exactly,
with the value taken in `ℚ`; any other input (including `NaN` and
`Infinity`, which fail the `0 ≤ t ≤ 2`-style range guards exactly as a parse
failure does) is `none`. -/

def digitsVal (l : List Char) : ℕ :=
  l.foldl (fun a c => 10 * a + (c.toNat - '0'.toNat)) 0

def isDigitStr (l : List Char) : Bool :=
  !l.isEmpty && l.all Char.isDigit

/-- Split a character list at the first `e`/`E` (exponent marker). -/
def splitExpMarker : List Char → List Char × Option (List Char)
  | [] => ([], none)
  | c :: rest =>
    if c = 'e' ∨ c = 'E' then ([], some rest)
    else
      let r := splitExpMarker rest
      (c :: r.1, r.2)

/-- Split a character list at the first `.`. -/
def splitDot : List Char → List Char × Option (List Char)
  | [] => ([], none)
  | c :: rest =>
    if c = '.' then ([], some rest)
    else
      let r := splitDot rest
      (c :: r.1, r.2)

def parseSign : List Char → ℚ × List Char
  | '-' :: rest => (-1, rest)
  | '+' :: rest => (1, rest)
  | l => (1, l)

def parseExpPart (l : List Char) : Option ℤ :=
  match l with
  | '-' :: d => if isDigitStr d then some (-(digitsVal d : ℤ)) else none
  | '+' :: d => if isDigitStr d then some (digitsVal d : ℤ) else none
  | d => if isDigitStr d then some (digitsVal d : ℤ) else none

/-- JS `Number(s)` for a trimmed input, on the decimal-numeral fragment. -/
def jsNumber (s : String) : Option ℚ :=
  let (sgn, l) := parseSign s.toList
  let (mant, expPart) := splitExpMarker l
  let (ip, fp) := splitDot mant
  let fracDigits := fp.getD []
  if !(ip.all Char.isDigit) then none
  else if !(fracDigits.all Char.isDigit) then none
  else if ip.isEmpty && fracDigits.isEmpty then none
  else
    let mval : ℚ := (digitsVal ip : ℚ) + (digitsVal fracDigits : ℚ) / (10 : ℚ) ^ fracDigits.length
    match expPart with
    | none => some (sgn * mval)
    | some e =>
      match parseExpPart e with
      | some z => some (sgn * mval * (10 : ℚ) ^ z)
      | none => none

/-! ## Tiered temperature resolution (`getTemperature`, config-manager.ts
lines 568-609) -/

/-- One tier of `getTemperature`: the block
`if (value?.trim()) { const temp = Number(value.trim());
if (!isNaN(temp) && temp >= 0 && temp <= 2) return temp; }`,
as the accepted value (or `none` to fall through to the next tier). -/
def temperatureTier (env : EnvMap) (key : String) : Option ℚ :=
  match resolveEnvVariableCached env key with
  | some v =>
    if jsTrim v ≠ "" then
      match jsNumber (jsTrim v) with
      | some temp => if 0 ≤ temp ∧ temp ≤ 2 then some temp else none
      | none => none
    else none
  | none => none

/-- `getTemperature`: provider tier, then `LLM_TEMPERATURE`, then
`LLM_TEMPERATURE_DEFAULT`, then a thrown configuration `StandardError`. -/
def getTemperature (env : EnvMap) (providerName : String) :
    Except StandardError ℚ :=
  match temperatureTier env (toUpperAscii providerName ++ "_TEMPERATURE") with
  | some temp => .ok temp
  | none =>
    match temperatureTier env "LLM_TEMPERATURE" with
    | some temp => .ok temp
    | none =>
      match temperatureTier env "LLM_TEMPERATURE_DEFAULT" with
      | some temp => .ok temp
      | none =>
        .error
          { message := "Temperature configuration missing for " ++ providerName
            category := .configuration
            code := some "TEMPERATURE_NOT_SET"
            provider := some providerName }

/-- Modelled from the spec (§4.3, §9): the tier chain as a generic
ordered-candidate "first valid wins" combinator — each source parsed as a
float and accepted only if the validity predicate holds, otherwise the chain
continues. -/
def firstValidSource (env : EnvMap) (valid : ℚ → Prop) [DecidablePred valid] :
    List String → Option ℚ
  | [] => none
  | key :: keys =>
    match env key with
    | some v =>
      if jsTrim v ≠ "" then
        match jsNumber (jsTrim v) with
        | some q => if valid q then some q else firstValidSource env valid keys
        | none => firstValidSource env valid keys
      else firstValidSource env valid keys
    | none => firstValidSource env valid keys

/-- Modelled from the spec: the temperature chain
`{PROVIDER}_TEMPERATURE → LLM_TEMPERATURE → LLM_TEMPERATURE_DEFAULT` with
validity `0 ≤ value ≤ 2`. -/
def specTemperatureChain (env : EnvMap) (providerName : String) : Option ℚ :=
  firstValidSource env (fun q => 0 ≤ q ∧ q ≤ 2)
    [toUpperAscii providerName ++ "_TEMPERATURE", "LLM_TEMPERATURE",
     "LLM_TEMPERATURE_DEFAULT"]

theorem temperatureTier_eq_firstValid (env : EnvMap) (key : String)
    (keys : List String) :
    firstValidSource env (fun q => 0 ≤ q ∧ q ≤ 2) (key :: keys) =
      match temperatureTier env key with
      | some q => some q
      | none => firstValidSource env (fun q => 0 ≤ q ∧ q ≤ 2) keys := by
  rw [firstValidSource, temperatureTier, resolveEnvVariableCached]
  cases env key with
  | none => rfl
  | some v =>
    dsimp only
    by_cases hv : jsTrim v ≠ ""
    · rw [if_pos hv, if_pos hv]
      cases jsNumber (jsTrim v) with
      | none => rfl
      | some q =>
        dsimp only
        by_cases hq : 0 ≤ q ∧ q ≤ 2
        · rw [if_pos hq, if_pos hq]
        · rw [if_neg hq, if_neg hq]
    · rw [if_neg hv, if_neg hv]

/-- C4: `getTemperature` is the spec's strict three-tier first-valid-wins
chain (provider tier, global tier, default tier, validity `0 ≤ t ≤ 2`, any
missing / empty / non-numeric / out-of-range value falling through); with
only `LLM_TEMPERATURE_DEFAULT=0.5` set it returns `0.5`; with
`OPENAI_TEMPERATURE=0.9` additionally set it returns `0.9`; and when no tier
validates it throws a CONFIGURATION-category error. -/
theorem getTemperature_tiered :
    (∀ env providerName q, specTemperatureChain env providerName = some q →
      getTemperature env providerName = .ok q) ∧
    (∀ env providerName, specTemperatureChain env providerName = none →
      ∃ e, getTemperature env providerName = .error e ∧
        e.category = .configuration) ∧
    (∀ env : EnvMap, env "OPENAI_TEMPERATURE" = none →
      env "LLM_TEMPERATURE" = none →
      env "LLM_TEMPERATURE_DEFAULT" = some "0.5" →
      getTemperature env "openai" = .ok (1/2)) ∧
    (∀ env : EnvMap, env "OPENAI_TEMPERATURE" = some "0.9" →
      getTemperature env "openai" = .ok (9/10)) := by
  have hchain : ∀ env providerName,
      getTemperature env providerName =
        match specTemperatureChain env providerName with
        | some q => .ok q
        | none =>
          .error
            { message := "Temperature configuration missing for " ++ providerName
              category := .configuration
              code := some "TEMPERATURE_NOT_SET"
              provider := some providerName } := by
    intro env providerName
    rw [getTemperature, specTemperatureChain]
    rw [temperatureTier_eq_firstValid, temperatureTier_eq_firstValid,
      temperatureTier_eq_firstValid]
    cases temperatureTier env (toUpperAscii providerName ++ "_TEMPERATURE") with
    | some q => rfl
    | none =>
      cases temperatureTier env "LLM_TEMPERATURE" with
      | some q => rfl
      | none =>
        cases temperatureTier env "LLM_TEMPERATURE_DEFAULT" with
        | some q => rfl
        | none => rfl
  refine ⟨?_, ?_, ?_, ?_⟩
  · intro env providerName q hq
    rw [hchain, hq]
  · intro env providerName hq
    rw [hchain, hq]
    exact ⟨_, rfl, rfl⟩
  · intro env h1 h2 h3
    rw [getTemperature]
    have k1 : (toUpperAscii "openai" ++ "_TEMPERATURE") = "OPENAI_TEMPERATURE" := rfl
    rw [k1]
    have t1 : temperatureTier env "OPENAI_TEMPERATURE" = none := by
      simp [temperatureTier, resolveEnvVariableCached, h1]
    have t2 : temperatureTier env "LLM_TEMPERATURE" = none := by
      simp [temperatureTier, resolveEnvVariableCached, h2]
    have t3 : temperatureTier env "LLM_TEMPERATURE_DEFAULT" = some (1/2) := by
      rw [temperatureTier, resolveEnvVariableCached, h3]
      dsimp only
      have h05 : jsNumber (jsTrim "0.5") = some (1/2) := by
        simp [jsNumber, jsTrim, jsTrimL, jsWhitespace, parseSign, splitExpMarker,
          splitDot, digitsVal]
        try norm_num
      rw [h05]
      rw [if_pos (by decide : jsTrim "0.5" ≠ "")]
      dsimp only
      rw [if_pos (by norm_num : (0:ℚ) ≤ 1/2 ∧ (1:ℚ)/2 ≤ 2)]
    rw [t1, t2, t3]
  · intro env h1
    rw [getTemperature]
    have k1 : (toUpperAscii "openai" ++ "_TEMPERATURE") = "OPENAI_TEMPERATURE" := rfl
    rw [k1]
    have t1 : temperatureTier env "OPENAI_TEMPERATURE" = some (9/10) := by
      rw [temperatureTier, resolveEnvVariableCached, h1]
      dsimp only
      have h09 : jsNumber (jsTrim "0.9") = some (9/10) := by
        simp [jsNumber, jsTrim, jsTrimL, jsWhitespace, parseSign, splitExpMarker,
          splitDot, digitsVal]
        try norm_num
      rw [h09]
      rw [if_pos (by decide : jsTrim "0.9" ≠ "")]
      dsimp only
      rw [if_pos (by norm_num : (0:ℚ) ≤ 9/10 ∧ (9:ℚ)/10 ≤ 2)]
    rw [t1]

/-- Witness for `getTemperature_tiered`: the two spec examples and the
no-tier-validates error, each at a concrete environment. -/
theorem getTemperature_tiered_witness :
    getTemperature (fun k => if k = "LLM_TEMPERATURE_DEFAULT" then some "0.5" else none)
      "openai" = .ok (1/2) ∧
    getTemperature
      (fun k => if k = "OPENAI_TEMPERATURE" then some "0.9"
                else if k = "LLM_TEMPERATURE_DEFAULT" then some "0.5" else none)
      "openai" = .ok (9/10) ∧
    ∃ e, getTemperature (fun k => if k = "LLM_TEMPERATURE" then some "abc" else none)
      "openai" = .error e ∧ e.category = .configuration := by
  refine ⟨?_, ?_, ?_⟩
  · exact getTemperature_tiered.2.2.1 _ rfl rfl rfl
  · exact getTemperature_tiered.2.2.2 _ rfl
  · exact getTemperature_tiered.2.1 _ "openai" (by decide)

/-! ## API-key placeholder validation (`validateApiKey`, config-manager.ts
lines 682-715)

The source tests the key against nine regex literals.  Each of them is a
sequence of: a literal run, a character class `[-_]`, an optional class
`[_-]?`, or `.*` (any run of non-newline characters); anchored at the start
(`RegExp.test` with `^`), optionally at the end (`$`), optionally
case-insensitive (`/i`, handled by ASCII-lowercasing the subject, since the
patterns are lowercase).  `reMatch` is a small matcher for exactly this
fragment, and the lemmas below characterize each pattern by a plain
string-shape predicate. -/

def asciiLowChar (c : Char) : Char :=
  if 'A' ≤ c ∧ c ≤ 'Z' then Char.ofNat (c.toNat + 32) else c

/-- JS `s.toLowerCase()` (ASCII fragment). -/
def toLowerAscii (l : List Char) : List Char :=
  l.map asciiLowChar

/-- JS `hay.includes(sub)`. -/
def jsIncludes (hay sub : List Char) : Bool :=
  match hay with
  | [] => sub.isPrefixOf []
  | _ :: t => sub.isPrefixOf hay || jsIncludes t sub

theorem jsIncludes_iff (hay sub : List Char) :
    jsIncludes hay sub = true ↔ sub <:+: hay := by
  induction hay with
  | nil =>
    rw [jsIncludes, List.isPrefixOf_iff_prefix, List.infix_nil]
    exact ⟨fun h => List.prefix_nil.mp h, fun h => h ▸ List.nil_prefix⟩
  | cons c t ih =>
    rw [jsIncludes, Bool.or_eq_true, List.isPrefixOf_iff_prefix, ih,
      List.infix_cons_iff]

/-- One atom of the regex fragment used by `validateApiKey`'s patterns. -/
inductive RAtom where
  | lit (l : List Char)
  | cls (cs : List Char)
  | optCls (cs : List Char)
  | dotStar

/-- `.*` matching: try the continuation at every suffix reachable without
crossing a newline (JS `.` does not match `\n`). -/
def starScan (k : List Char → Bool) : List Char → Bool
  | [] => k []
  | c :: s => k (c :: s) || (!(c = '\n') && starScan k s)

/-- Matcher for a start-anchored atom sequence; `anchorEnd` is the `$`. -/
def reMatch : List RAtom → Bool → List Char → Bool
  | [], anchorEnd, s => if anchorEnd then s.isEmpty else true
  | .lit l :: as, ae, s => l.isPrefixOf s && reMatch as ae (s.drop l.length)
  | .cls cs :: as, ae, s =>
    match s with
    | [] => false
    | c :: t => cs.contains c && reMatch as ae t
  | .optCls cs :: as, ae, s =>
    reMatch as ae s ||
      (match s with
       | [] => false
       | c :: t => cs.contains c && reMatch as ae t)
  | .dotStar :: as, ae, s => starScan (reMatch as ae) s

theorem reMatch_nil_anchored (s : List Char) :
    reMatch [] true s = true ↔ s = [] := by
  rw [reMatch]
  simp

theorem reMatch_nil_free (s : List Char) : reMatch [] false s = true := rfl

theorem reMatch_lit_iff (l : List Char) (as : List RAtom) (ae : Bool)
    (s : List Char) :
    reMatch (.lit l :: as) ae s = true ↔
      ∃ t, s = l ++ t ∧ reMatch as ae t = true := by
  rw [reMatch, Bool.and_eq_true, List.isPrefixOf_iff_prefix]
  constructor
  · rintro ⟨⟨t, rfl⟩, h2⟩
    exact ⟨t, rfl, by simpa [List.drop_left] using h2⟩
  · rintro ⟨t, rfl, h⟩
    exact ⟨⟨t, rfl⟩, by simpa [List.drop_left] using h⟩

theorem reMatch_cls_iff (cs : List Char) (as : List RAtom) (ae : Bool)
    (s : List Char) :
    reMatch (.cls cs :: as) ae s = true ↔
      ∃ c t, s = c :: t ∧ cs.contains c = true ∧ reMatch as ae t = true := by
  cases s with
  | nil => simp [reMatch]
  | cons c t =>
    rw [reMatch, Bool.and_eq_true]
    constructor
    · rintro ⟨h1, h2⟩
      exact ⟨c, t, rfl, h1, h2⟩
    · rintro ⟨c', t', heq, h1, h2⟩
      injection heq with e1 e2
      subst e1
      subst e2
      exact ⟨h1, h2⟩

theorem reMatch_optCls_iff (cs : List Char) (as : List RAtom) (ae : Bool)
    (s : List Char) :
    reMatch (.optCls cs :: as) ae s = true ↔
      reMatch as ae s = true ∨
        ∃ c t, s = c :: t ∧ cs.contains c = true ∧ reMatch as ae t = true := by
  cases s with
  | nil => simp [reMatch]
  | cons c t =>
    rw [reMatch, Bool.or_eq_true, Bool.and_eq_true]
    constructor
    · rintro (h | ⟨h1, h2⟩)
      · exact .inl h
      · exact .inr ⟨c, t, rfl, h1, h2⟩
    · rintro (h | ⟨c', t', heq, h1, h2⟩)
      · exact .inl h
      · injection heq with e1 e2
        subst e1
        subst e2
        exact .inr ⟨h1, h2⟩

theorem starScan_iff (k : List Char → Bool) (s : List Char) :
    starScan k s = true ↔
      ∃ u t, s = u ++ t ∧ '\n' ∉ u ∧ k t = true := by
  induction s with
  | nil =>
    rw [starScan]
    constructor
    · intro h
      exact ⟨[], [], rfl, by simp, h⟩
    · rintro ⟨u, t, heq, _, hk⟩
      obtain ⟨rfl, rfl⟩ := List.append_eq_nil.mp heq.symm
      exact hk
  | cons c s ih =>
    rw [starScan, Bool.or_eq_true, Bool.and_eq_true, Bool.not_eq_true']
    constructor
    · rintro (h | ⟨hc, hs⟩)
      · exact ⟨[], c :: s, rfl, by simp, h⟩
      · obtain ⟨u, t, rfl, hu, hk⟩ := ih.mp hs
        refine ⟨c :: u, t, rfl, ?_, hk⟩
        intro hmem
        rcases List.mem_cons.mp hmem with h' | h'
        · exact absurd h'.symm (by simpa using hc)
        · exact hu h'
    · rintro ⟨u, t, heq, hu, hk⟩
      cases u with
      | nil =>
        rw [List.nil_append] at heq
        rw [← heq] at hk
        exact .inl hk
      | cons c' u' =>
        injection heq with e1 e2
        subst e1
        refine .inr ⟨?_, ih.mpr ⟨u', t, e2, fun h => hu (List.mem_cons_of_mem _ h), hk⟩⟩
        rw [decide_eq_false_iff_not]
        intro hcn
        subst hcn
        exact hu (List.mem_cons_self _ _)

theorem reMatch_dotStar_iff (as : List RAtom) (ae : Bool) (s : List Char) :
    reMatch (.dotStar :: as) ae s = true ↔
      ∃ u t, s = u ++ t ∧ '\n' ∉ u ∧ reMatch as ae t = true :=
  starScan_iff (reMatch as ae) s

/-- Pattern `^sk-ant-your-` (not case-insensitive). -/
def reSkAntYour : List RAtom := [.lit "sk-ant-your-".data]

/-- Pattern `^your[-_].*[-_]key[-_]here$`, case-insensitive. -/
def reYourKeyHere : List RAtom :=
  [.lit "your".data, .cls ['-', '_'], .dotStar, .cls ['-', '_'],
   .lit "key".data, .cls ['-', '_'], .lit "here".data]

/-- Pattern `^your[-_].*[-_]here$`, case-insensitive. -/
def reYourHere : List RAtom :=
  [.lit "your".data, .cls ['-', '_'], .dotStar, .cls ['-', '_'],
   .lit "here".data]

/-- Pattern `^placeholder`, case-insensitive. -/
def rePlaceholder : List RAtom := [.lit "placeholder".data]

/-- Pattern `^dummy`, case-insensitive. -/
def reDummy : List RAtom := [.lit "dummy".data]

/-- Pattern `^test.*key`, case-insensitive. -/
def reTestKey : List RAtom := [.lit "test".data, .dotStar, .lit "key".data]

/-- Pattern `^example`, case-insensitive. -/
def reExample : List RAtom := [.lit "example".data]

/-- Pattern `^api[_-]?key`, case-insensitive. -/
def reApiKey : List RAtom := [.lit "api".data, .optCls ['_', '-'], .lit "key".data]

/-- Pattern `^replace[_-]?me`, case-insensitive. -/
def reReplaceMe : List RAtom := [.lit "replace".data, .optCls ['_', '-'], .lit "me".data]

/-- The nine `placeholderPatterns` regex literals of `validateApiKey`:
atoms, end-anchor flag, case-insensitivity flag, in source order. -/
def placeholderPatterns : List (List RAtom × Bool × Bool) :=
  [ (reSkAntYour, false, false),
    (reYourKeyHere, true, true),
    (reYourHere, true, true),
    (rePlaceholder, false, true),
    (reDummy, false, true),
    (reTestKey, false, true),
    (reExample, false, true),
    (reApiKey, false, true),
    (reReplaceMe, false, true) ]

/-- `process.env.NODE_ENV === "test" || process.env.TEST_MODE === "true"`. -/
def testModeEnv (env : EnvMap) : Prop :=
  env "NODE_ENV" = some "test" ∨ env "TEST_MODE" = some "true"

instance (env : EnvMap) : Decidable (testModeEnv env) :=
  inferInstanceAs (Decidable (_ ∨ _))

/-- `validateApiKey` (config-manager.ts lines 682-715): reject empty/blank;
in test mode reject exactly the keys containing `your_`, `_here` or
`placeholder`; otherwise reject exactly the keys matching one of the nine
placeholder patterns. -/
def validateApiKey (env : EnvMap) (providerName apiKey : String) : Bool :=
  if jsTrim apiKey = "" then false
  else if testModeEnv env then
    !(jsIncludes apiKey.data "your_".data) &&
      !(jsIncludes apiKey.data "_here".data) &&
        !(jsIncludes apiKey.data "placeholder".data)
  else
    !(placeholderPatterns.any fun pat =>
        reMatch pat.1 pat.2.1
          (bif pat.2.2 then toLowerAscii apiKey.data else apiKey.data))

/-- A `[-_]` / `[_-]` class character. -/
def delimChar (c : Char) : Prop := c = '-' ∨ c = '_'

theorem contains_delim_iff (c : Char) :
    (['-', '_'].contains c = true ↔ delimChar c) ∧
    (['_', '-'].contains c = true ↔ delimChar c) := by
  constructor <;>
  · show List.elem c _ = true ↔ _
    rcases Decidable.em (c = '-') with h | h <;>
      rcases Decidable.em (c = '_') with h' | h' <;>
        simp [List.elem_cons, List.elem_nil, delimChar, h, h', beq_iff_eq]

/-- The shape matched by `/^your[-_].*[-_]here$/`. -/
def yourHereShape (l : List Char) : Prop :=
  ∃ d1 d2 mid, delimChar d1 ∧ delimChar d2 ∧ '\n' ∉ mid ∧
    l = "your".data ++ d1 :: (mid ++ d2 :: "here".data)

/-- The shape matched by `/^your[-_].*[-_]key[-_]here$/`. -/
def yourKeyHereShape (l : List Char) : Prop :=
  ∃ d1 d2 d3 mid, delimChar d1 ∧ delimChar d2 ∧ delimChar d3 ∧ '\n' ∉ mid ∧
    l = "your".data ++ d1 :: (mid ++ d2 :: ("key".data ++ d3 :: "here".data))

/-- The shape matched by `/^test.*key/`. -/
def testKeyShape (l : List Char) : Prop :=
  ∃ mid rest, '\n' ∉ mid ∧ l = "test".data ++ (mid ++ ("key".data ++ rest))

/-- The shape matched by `/^pre[_-]?post/`. -/
def optDelimShape (pre post : String) (l : List Char) : Prop :=
  (pre.data ++ post.data) <+: l ∨
    ∃ d, delimChar d ∧ (pre.data ++ d :: post.data) <+: l

theorem pat_lit_free_iff (l s : List Char) :
    reMatch [.lit l] false s = true ↔ l <+: s := by
  rw [reMatch_lit_iff]
  constructor
  · rintro ⟨t, rfl, _⟩
    exact ⟨t, rfl⟩
  · rintro ⟨t, rfl⟩
    exact ⟨t, rfl, reMatch_nil_free t⟩

theorem pat_yourHere_iff (s : List Char) :
    reMatch reYourHere true s = true ↔ yourHereShape s := by
  rw [reYourHere, reMatch_lit_iff]
  constructor
  · rintro ⟨t, rfl, h⟩
    rw [reMatch_cls_iff] at h
    obtain ⟨d1, t1, rfl, hd1, h⟩ := h
    rw [reMatch_dotStar_iff] at h
    obtain ⟨mid, t2, rfl, hmid, h⟩ := h
    rw [reMatch_cls_iff] at h
    obtain ⟨d2, t3, rfl, hd2, h⟩ := h
    rw [reMatch_lit_iff] at h
    obtain ⟨t4, rfl, h⟩ := h
    rw [reMatch_nil_anchored] at h
    subst h
    exact ⟨d1, d2, mid, (contains_delim_iff d1).1.mp hd1,
      (contains_delim_iff d2).1.mp hd2, hmid, by simp⟩
  · rintro ⟨d1, d2, mid, hd1, hd2, hmid, rfl⟩
    refine ⟨_, rfl, ?_⟩
    rw [reMatch_cls_iff]
    refine ⟨d1, _, rfl, (contains_delim_iff d1).1.mpr hd1, ?_⟩
    rw [reMatch_dotStar_iff]
    refine ⟨mid, _, rfl, hmid, ?_⟩
    rw [reMatch_cls_iff]
    refine ⟨d2, _, rfl, (contains_delim_iff d2).1.mpr hd2, ?_⟩
    rw [reMatch_lit_iff]
    exact ⟨[], by simp, by rw [reMatch_nil_anchored]⟩

theorem pat_yourKeyHere_iff (s : List Char) :
    reMatch reYourKeyHere true s = true ↔ yourKeyHereShape s := by
  rw [reYourKeyHere, reMatch_lit_iff]
  constructor
  · rintro ⟨t, rfl, h⟩
    rw [reMatch_cls_iff] at h
    obtain ⟨d1, t1, rfl, hd1, h⟩ := h
    rw [reMatch_dotStar_iff] at h
    obtain ⟨mid, t2, rfl, hmid, h⟩ := h
    rw [reMatch_cls_iff] at h
    obtain ⟨d2, t3, rfl, hd2, h⟩ := h
    rw [reMatch_lit_iff] at h
    obtain ⟨t4, rfl, h⟩ := h
    rw [reMatch_cls_iff] at h
    obtain ⟨d3, t5, rfl, hd3, h⟩ := h
    rw [reMatch_lit_iff] at h
    obtain ⟨t6, rfl, h⟩ := h
    rw [reMatch_nil_anchored] at h
    subst h
    exact ⟨d1, d2, d3, mid, (contains_delim_iff d1).1.mp hd1,
      (contains_delim_iff d2).1.mp hd2, (contains_delim_iff d3).1.mp hd3,
      hmid, by simp⟩
  · rintro ⟨d1, d2, d3, mid, hd1, hd2, hd3, hmid, rfl⟩
    refine ⟨_, rfl, ?_⟩
    rw [reMatch_cls_iff]
    refine ⟨d1, _, rfl, (contains_delim_iff d1).1.mpr hd1, ?_⟩
    rw [reMatch_dotStar_iff]
    refine ⟨mid, _, rfl, hmid, ?_⟩
    rw [reMatch_cls_iff]
    refine ⟨d2, _, rfl, (contains_delim_iff d2).1.mpr hd2, ?_⟩
    rw [reMatch_lit_iff]
    refine ⟨_, rfl, ?_⟩
    rw [reMatch_cls_iff]
    refine ⟨d3, _, rfl, (contains_delim_iff d3).1.mpr hd3, ?_⟩
    rw [reMatch_lit_iff]
    exact ⟨[], by simp, by rw [reMatch_nil_anchored]⟩

theorem pat_testKey_iff (s : List Char) :
    reMatch reTestKey false s = true ↔ testKeyShape s := by
  rw [reTestKey, reMatch_lit_iff]
  constructor
  · rintro ⟨t, rfl, h⟩
    rw [reMatch_dotStar_iff] at h
    obtain ⟨mid, t2, rfl, hmid, h⟩ := h
    rw [reMatch_lit_iff] at h
    obtain ⟨t3, rfl, _⟩ := h
    exact ⟨mid, t3, hmid, rfl⟩
  · rintro ⟨mid, rest, hmid, rfl⟩
    refine ⟨_, rfl, ?_⟩
    rw [reMatch_dotStar_iff]
    refine ⟨mid, _, rfl, hmid, ?_⟩
    rw [reMatch_lit_iff]
    exact ⟨rest, rfl, reMatch_nil_free rest⟩

theorem pat_skAnt_iff (s : List Char) :
    reMatch reSkAntYour false s = true ↔ "sk-ant-your-".data <+: s := by
  rw [reSkAntYour]
  exact pat_lit_free_iff _ s

theorem pat_placeholder_iff (s : List Char) :
    reMatch rePlaceholder false s = true ↔ "placeholder".data <+: s := by
  rw [rePlaceholder]
  exact pat_lit_free_iff _ s

theorem pat_dummy_iff (s : List Char) :
    reMatch reDummy false s = true ↔ "dummy".data <+: s := by
  rw [reDummy]
  exact pat_lit_free_iff _ s

theorem pat_example_iff (s : List Char) :
    reMatch reExample false s = true ↔ "example".data <+: s := by
  rw [reExample]
  exact pat_lit_free_iff _ s

theorem pat_optDelim_iff (pre post : String) (s : List Char) :
    reMatch [.lit pre.data, .optCls ['_', '-'], .lit post.data] false s = true ↔
      optDelimShape pre post s := by
  rw [reMatch_lit_iff]
  constructor
  · rintro ⟨t, rfl, h⟩
    rw [reMatch_optCls_iff] at h
    rcases h with h | ⟨d, t', rfl, hd, h⟩
    · rw [pat_lit_free_iff] at h
      obtain ⟨r, rfl⟩ := h
      exact .inl ⟨r, by simp⟩
    · rw [pat_lit_free_iff] at h
      obtain ⟨r, rfl⟩ := h
      exact .inr ⟨d, (contains_delim_iff d).2.mp hd, r, by simp⟩
  · rintro (⟨r, rfl⟩ | ⟨d, hd, r, rfl⟩)
    · rw [List.append_assoc]
      refine ⟨_, rfl, ?_⟩
      rw [reMatch_optCls_iff]
      exact .inl ((pat_lit_free_iff _ _).mpr ⟨r, rfl⟩)
    · rw [List.append_assoc]
      refine ⟨_, rfl, ?_⟩
      rw [reMatch_optCls_iff]
      exact .inr ⟨d, _, rfl, (contains_delim_iff d).2.mpr hd,
        (pat_lit_free_iff _ _).mpr ⟨r, rfl⟩⟩

theorem pat_apiKey_iff (s : List Char) :
    reMatch reApiKey false s = true ↔ optDelimShape "api" "key" s := by
  rw [reApiKey]
  exact pat_optDelim_iff "api" "key" s

theorem pat_replaceMe_iff (s : List Char) :
    reMatch reReplaceMe false s = true ↔ optDelimShape "replace" "me" s := by
  rw [reReplaceMe]
  exact pat_optDelim_iff "replace" "me" s

/-- C6 counterexample: with test mode off, the key `"kkyour_here"` literally
contains both `"your_"` and `"_here"`, yet `validateApiKey` accepts it — the
source's non-test rejection patterns are all anchored at the start of the
key, so mere containment does not reject. -/
theorem validateApiKey_containment_cex :
    jsIncludes "kkyour_here".data "your_".data = true ∧
    jsIncludes "kkyour_here".data "_here".data = true ∧
    ¬ testModeEnv (fun _ => none) ∧
    validateApiKey (fun _ => none) "openai" "kkyour_here" = true :=
  ⟨by decide, by decide, by decide, by decide⟩

/-- C6 (amended): blank keys are always rejected; with the test-mode
relaxation set, exactly the keys containing `your_`, `_here` or `placeholder`
are rejected; with test mode off, rejection is exactly by the anchored
placeholder-pattern list — keys starting with `sk-ant-your-`, matching the
templated `your-…-key-here` / `your-…-here` shapes case-insensitively, or
starting (case-insensitively) with `placeholder`, `dummy`, `test…key`,
`example`, `api[-_]?key` or `replace[-_]?me` — so a key merely containing the
placeholder substrings elsewhere is accepted; `"your_openai_api_key_here"` is
treated as not-configured and `"sk-abc123realkey"` as configured, in both
modes. -/
theorem validateApiKey_placeholder_rules :
    (∀ env providerName key, jsTrim key = "" →
      validateApiKey env providerName key = false) ∧
    (∀ env providerName key, testModeEnv env → jsTrim key ≠ "" →
      (validateApiKey env providerName key = false ↔
        ("your_".data <:+: key.data ∨ "_here".data <:+: key.data ∨
          "placeholder".data <:+: key.data))) ∧
    (∀ env providerName key, ¬ testModeEnv env → jsTrim key ≠ "" →
      (validateApiKey env providerName key = false ↔
        ("sk-ant-your-".data <+: key.data ∨
          yourKeyHereShape (toLowerAscii key.data) ∨
          yourHereShape (toLowerAscii key.data) ∨
          "placeholder".data <+: toLowerAscii key.data ∨
          "dummy".data <+: toLowerAscii key.data ∨
          testKeyShape (toLowerAscii key.data) ∨
          "example".data <+: toLowerAscii key.data ∨
          optDelimShape "api" "key" (toLowerAscii key.data) ∨
          optDelimShape "replace" "me" (toLowerAscii key.data)))) ∧
    (∀ env providerName,
      validateApiKey env providerName "your_openai_api_key_here" = false) ∧
    (∀ env providerName,
      validateApiKey env providerName "sk-abc123realkey" = true) := by
  have hnot : ∀ b : Bool, ((!b) = false ↔ b = true) := by decide
  have hand3 : ∀ x y z : Bool,
      ((!x && !y && !z) = false ↔ (x = true ∨ y = true ∨ z = true)) := by decide
  refine ⟨?_, ?_, ?_, ?_, ?_⟩
  · intro env providerName key hk
    rw [validateApiKey, if_pos hk]
  · intro env providerName key ht hk
    rw [validateApiKey, if_neg hk, if_pos ht, hand3, jsIncludes_iff,
      jsIncludes_iff, jsIncludes_iff]
  · intro env providerName key ht hk
    rw [validateApiKey, if_neg hk, if_neg ht, hnot]
    simp only [placeholderPatterns, List.any_cons, List.any_nil,
      Bool.or_eq_true, Bool.cond_true, Bool.cond_false, Bool.or_false]
    simp only [pat_skAnt_iff, pat_yourKeyHere_iff, pat_yourHere_iff,
      pat_placeholder_iff, pat_dummy_iff, pat_testKey_iff, pat_example_iff,
      pat_apiKey_iff, pat_replaceMe_iff]
  · intro env providerName
    rw [validateApiKey,
      if_neg (by decide : ¬(jsTrim "your_openai_api_key_here" = ""))]
    by_cases ht : testModeEnv env
    · rw [if_pos ht]
      decide
    · rw [if_neg ht]
      decide
  · intro env providerName
    rw [validateApiKey,
      if_neg (by decide : ¬(jsTrim "sk-abc123realkey" = ""))]
    by_cases ht : testModeEnv env
    · rw [if_pos ht]
      decide
    · rw [if_neg ht]
      decide

/-- Witness for `validateApiKey_placeholder_rules` at concrete keys: a blank
key, a test-mode key containing `your_`, a non-test `dummy-` key, and the two
spec example keys. -/
theorem validateApiKey_placeholder_rules_witness :
    validateApiKey (fun _ => none) "openai" "   " = false ∧
    validateApiKey (fun k => if k = "TEST_MODE" then some "true" else none)
      "openai" "sk-your_x" = false ∧
    validateApiKey (fun _ => none) "openai" "dummy-key" = false ∧
    validateApiKey (fun _ => none) "openai" "your_openai_api_key_here" = false ∧
    validateApiKey (fun _ => none) "openai" "sk-abc123realkey" = true := by
  refine ⟨?_, ?_, ?_, ?_, ?_⟩
  · exact validateApiKey_placeholder_rules.1 _ "openai" _ (by decide)
  · exact (validateApiKey_placeholder_rules.2.1 _ "openai" _ (by decide)
      (by decide)).mpr (.inl ⟨"sk-".data, "x".data, by decide⟩)
  · exact (validateApiKey_placeholder_rules.2.2.1 _ "openai" _ (by decide)
      (by decide)).mpr
      (.inr (.inr (.inr (.inr (.inl ⟨"-key".data, by decide⟩)))))
  · exact validateApiKey_placeholder_rules.2.2.2.1 _ "openai"
  · exact validateApiKey_placeholder_rules.2.2.2.2 _ "openai"

/-! ## Best-available-provider selection (config-manager.ts lines 662-801) -/

/-- Modelled from the spec: `SUPPORTED_PROVIDERS` is exported by
`src/ai-providers/index.ts`, which is not among the provided sources (only its
importers are).  The fixed provider set is taken from the spec's "fixed
enumerable set known at build time" together with the repository's
documented default `PROVIDER_SELECTION_PRIORITY` list. -/
def SUPPORTED_PROVIDERS : List String :=
  ["openai", "google", "openrouter", "zai", "anthropic", "groq", "xai",
   "qwen", "mistral", "perplexity", "azure", "bedrock", "vertex", "ollama"]

/-- Modelled from the spec: `PROVIDER_API_KEYS` (also from
`src/ai-providers/index.ts`) maps each supported provider to its
`{PROVIDER}_API_KEY` environment variable. -/
def PROVIDER_API_KEYS (providerName : String) : Option String :=
  if SUPPORTED_PROVIDERS.contains providerName then
    some (toUpperAscii providerName ++ "_API_KEY")
  else none

/-- `getApiKey` (config-manager.ts lines 485-498). -/
def getApiKey (env : EnvMap) (providerName : String) : Option String :=
  match PROVIDER_API_KEYS providerName with
  | none => none
  | some envKey =>
    match resolveEnvVariableCached env envKey with
    | none => none
    | some apiKey => if jsTrim apiKey = "" then none else some (jsTrim apiKey)

/-- `isProviderConfigured` (config-manager.ts lines 720-723). -/
def isProviderConfigured (env : EnvMap) (providerName : String) : Bool :=
  match getApiKey env providerName with
  | some apiKey => validateApiKey env providerName apiKey
  | none => false

/-- `getDefaultProvider` (config-manager.ts lines 662-677). -/
def getDefaultProvider (env : EnvMap) : Except StandardError String :=
  match resolveEnvVariableCached env "DEFAULT_LLM_PROVIDER" with
  | none =>
    .error { message := "Default provider configuration missing"
             category := .configuration
             code := some "DEFAULT_PROVIDER_NOT_SET"
             provider := none }
  | some provider =>
    if jsTrim provider = "" then
      .error { message := "Default provider configuration missing"
               category := .configuration
               code := some "DEFAULT_PROVIDER_NOT_SET"
               provider := none }
    else .ok (jsTrim provider)

/-- `getModel` (config-manager.ts lines 504-533). -/
def getModel (env : EnvMap) (providerName : String) : Except StandardError String :=
  match resolveEnvVariableCached env (toUpperAscii providerName ++ "_MODEL") with
  | some userModel =>
    if jsTrim userModel ≠ "" then .ok (jsTrim userModel)
    else getModelDefaultTier env providerName
  | none => getModelDefaultTier env providerName
where
  getModelDefaultTier (env : EnvMap) (providerName : String) :
      Except StandardError String :=
    match resolveEnvVariableCached env (toUpperAscii providerName ++ "_MODEL_DEFAULT") with
    | some defaultModel =>
      if jsTrim defaultModel ≠ "" then .ok (jsTrim defaultModel)
      else
        .error { message := "Model configuration missing for " ++ providerName
                 category := .configuration
                 code := some "MODEL_NOT_SET"
                 provider := some providerName }
    | none =>
      .error { message := "Model configuration missing for " ++ providerName
               category := .configuration
               code := some "MODEL_NOT_SET"
               provider := some providerName }

structure ProviderStatus where
  name : String
  model : Option String
  hasApiKey : Bool

/-- The loop body of `getConfiguredProviders` over the remaining provider
names: `model` is resolved (and its configuration error propagates) only when
the provider has a valid API key. -/
def configuredProvidersAux (env : EnvMap) :
    List String → Except StandardError (List ProviderStatus)
  | [] => .ok []
  | name :: rest =>
    let apiKey := getApiKey env name
    let hasApiKey :=
      match apiKey with
      | some k => validateApiKey env name k
      | none => false
    match (if hasApiKey then (getModel env name).map some else .ok none) with
    | .error e => .error e
    | .ok model =>
      match configuredProvidersAux env rest with
      | .error e => .error e
      | .ok l => .ok ({ name := name, model := model, hasApiKey := hasApiKey } :: l)

/-- `getConfiguredProviders` (config-manager.ts lines 538-562). -/
def getConfiguredProviders (env : EnvMap) :
    Except StandardError (List ProviderStatus) :=
  configuredProvidersAux env SUPPORTED_PROVIDERS

/-- `priority.split(",").map(p => p.trim()).filter(p => p.length > 0)`. -/
def priorityListOf (priority : String) : List String :=
  ((priority.data.splitOn ',').map fun seg => (⟨jsTrimL seg⟩ : String)).filter
    fun p => decide (0 < p.length)

/-- The fallback branch of `getProviderPriority`: default provider first,
then the other configured providers; if that throws, the `catch` recomputes
the configured providers (whose own error, if any, propagates). -/
def getProviderPriorityFallback (env : EnvMap) :
    Except StandardError (List String) :=
  match (do
    let defaultProvider ← getDefaultProvider env
    let configured ← getConfiguredProviders env
    pure (defaultProvider ::
      (((configured.filter fun p => p.hasApiKey).map fun p => p.name).filter
        fun p => p ≠ defaultProvider)) : Except StandardError (List String)) with
  | .ok r => .ok r
  | .error _ =>
    (getConfiguredProviders env).map fun configured =>
      (configured.filter fun p => p.hasApiKey).map fun p => p.name

/-- `getProviderPriority` (config-manager.ts lines 729-780): the comma list
from `PROVIDER_SELECTION_PRIORITY`, validated against `SUPPORTED_PROVIDERS`
(unknown names are a thrown configuration error); otherwise the fallback.
The thrown message's joined invalid-name list is abbreviated to a constant
(no logic reads it). -/
def getProviderPriority (env : EnvMap) : Except StandardError (List String) :=
  match resolveEnvVariableCached env "PROVIDER_SELECTION_PRIORITY" with
  | some priority =>
    if jsTrim priority ≠ "" then
      let providers := priorityListOf priority
      if 0 < providers.length then
        let invalidProviders :=
          providers.filter fun p => !(SUPPORTED_PROVIDERS.contains p)
        if 0 < invalidProviders.length then
          .error { message := "Invalid providers in priority configuration"
                   category := .configuration
                   code := some "INVALID_PROVIDERS"
                   provider := none }
        else .ok providers
      else getProviderPriorityFallback env
    else getProviderPriorityFallback env
  | none => getProviderPriorityFallback env

/-- `getBestAvailableProvider` (config-manager.ts lines 785-801). -/
def getBestAvailableProvider (env : EnvMap) :
    Except StandardError (Option String) :=
  match getDefaultProvider env with
  | .error e => .error e
  | .ok defaultProvider =>
    if defaultProvider ≠ "" ∧ isProviderConfigured env defaultProvider = true then
      .ok (some defaultProvider)
    else
      match getProviderPriority env with
      | .error e => .error e
      | .ok providerPriority =>
        .ok (providerPriority.find? fun provider => isProviderConfigured env provider)

/-- C3: with a default provider named and an explicit nonempty
`PROVIDER_SELECTION_PRIORITY`: if the default provider is configured (valid,
non-placeholder API key) it is returned; otherwise, if every name in the
priority list is a supported provider, the first configured provider of the
list is returned — in particular `none` (JS `null`), not an error, when no
provider is configured; and a name outside the supported set is a
CONFIGURATION-category error. -/
theorem getBestAvailableProvider_selection (env : EnvMap)
    (dRaw pRaw : String)
    (hdv : env "DEFAULT_LLM_PROVIDER" = some dRaw) (hdne : jsTrim dRaw ≠ "")
    (hpv : env "PROVIDER_SELECTION_PRIORITY" = some pRaw)
    (hpne : jsTrim pRaw ≠ "") (hplen : 0 < (priorityListOf pRaw).length) :
    (isProviderConfigured env (jsTrim dRaw) = true →
      getBestAvailableProvider env = .ok (some (jsTrim dRaw))) ∧
    (isProviderConfigured env (jsTrim dRaw) = false →
      (∀ p ∈ priorityListOf pRaw, SUPPORTED_PROVIDERS.contains p = true) →
      getBestAvailableProvider env =
        .ok ((priorityListOf pRaw).find? fun provider =>
          isProviderConfigured env provider)) ∧
    (isProviderConfigured env (jsTrim dRaw) = false →
      (∀ p ∈ priorityListOf pRaw, SUPPORTED_PROVIDERS.contains p = true) →
      (∀ p ∈ priorityListOf pRaw, isProviderConfigured env p = false) →
      getBestAvailableProvider env = .ok none) ∧
    (isProviderConfigured env (jsTrim dRaw) = false →
      (∃ p ∈ priorityListOf pRaw, SUPPORTED_PROVIDERS.contains p = false) →
      ∃ e, getBestAvailableProvider env = .error e ∧
        e.category = .configuration) := by
  have hdef : getDefaultProvider env = .ok (jsTrim dRaw) := by
    rw [getDefaultProvider, resolveEnvVariableCached, hdv]
    dsimp only
    rw [if_neg hdne]
  have hprioOk : (∀ p ∈ priorityListOf pRaw, SUPPORTED_PROVIDERS.contains p = true) →
      getProviderPriority env = .ok (priorityListOf pRaw) := by
    intro hvalid
    rw [getProviderPriority, resolveEnvVariableCached, hpv]
    dsimp only
    rw [if_pos hpne, if_pos hplen]
    have hinv : (priorityListOf pRaw).filter
        (fun p => !(SUPPORTED_PROVIDERS.contains p)) = [] := by
      rw [List.filter_eq_nil_iff]
      intro p hp
      rw [hvalid p hp]
      decide
    rw [hinv]
    rfl
  have hbestWalk : isProviderConfigured env (jsTrim dRaw) = false →
      (∀ p ∈ priorityListOf pRaw, SUPPORTED_PROVIDERS.contains p = true) →
      getBestAvailableProvider env =
        .ok ((priorityListOf pRaw).find? fun provider =>
          isProviderConfigured env provider) := by
    intro hconf hvalid
    rw [getBestAvailableProvider, hdef]
    dsimp only
    rw [if_neg (by simp [hconf]), hprioOk hvalid]
  refine ⟨?_, ?_, ?_, ?_⟩
  · intro hconf
    rw [getBestAvailableProvider, hdef]
    dsimp only
    rw [if_pos ⟨hdne, hconf⟩]
  · exact hbestWalk
  · intro hconf hvalid hnone
    rw [hbestWalk hconf hvalid]
    have hfind : (priorityListOf pRaw).find?
        (fun provider => isProviderConfigured env provider) = none := by
      rw [List.find?_eq_none]
      intro p hp
      rw [hnone p hp]
      decide
    rw [hfind]
  · intro hconf hinvalid
    obtain ⟨p, hp, hpc⟩ := hinvalid
    have hprio : getProviderPriority env =
        .error { message := "Invalid providers in priority configuration"
                 category := .configuration
                 code := some "INVALID_PROVIDERS"
                 provider := none } := by
      rw [getProviderPriority, resolveEnvVariableCached, hpv]
      dsimp only
      rw [if_pos hpne, if_pos hplen]
      have hmem : p ∈ (priorityListOf pRaw).filter
          (fun q => !(SUPPORTED_PROVIDERS.contains q)) :=
        List.mem_filter.mpr ⟨hp, by rw [hpc]; decide⟩
      rw [if_pos (List.length_pos.mpr (List.ne_nil_of_mem hmem))]
    rw [getBestAvailableProvider, hdef]
    dsimp only
    rw [if_neg (by simp [hconf]), hprio]
    exact ⟨_, rfl, rfl⟩

/-- Witness for `getBestAvailableProvider_selection`: four concrete
environments — default configured; default unconfigured with a configured
provider later in the list; nothing configured; an unknown name in the
priority list. -/
theorem getBestAvailableProvider_selection_witness :
    getBestAvailableProvider
      (fun k => if k = "DEFAULT_LLM_PROVIDER" then some "openai"
                else if k = "PROVIDER_SELECTION_PRIORITY" then some "anthropic,google"
                else if k = "OPENAI_API_KEY" then some "sk-abc123realkey"
                else none) = .ok (some "openai") ∧
    getBestAvailableProvider
      (fun k => if k = "DEFAULT_LLM_PROVIDER" then some "openai"
                else if k = "PROVIDER_SELECTION_PRIORITY" then some "anthropic,google"
                else if k = "ANTHROPIC_API_KEY" then some "sk-ant-real123"
                else none) = .ok (some "anthropic") ∧
    getBestAvailableProvider
      (fun k => if k = "DEFAULT_LLM_PROVIDER" then some "openai"
                else if k = "PROVIDER_SELECTION_PRIORITY" then some "anthropic,google"
                else none) = .ok none ∧
    ∃ e, getBestAvailableProvider
      (fun k => if k = "DEFAULT_LLM_PROVIDER" then some "openai"
                else if k = "PROVIDER_SELECTION_PRIORITY" then some "anthropic,notaprovider"
                else none) = .error e ∧ e.category = .configuration := by
  refine ⟨?_, ?_, ?_, ?_⟩
  · rw [(getBestAvailableProvider_selection _ "openai" "anthropic,google"
      rfl (by decide) rfl (by decide) (by decide)).1 (by decide)]
    rfl
  · rw [(getBestAvailableProvider_selection _ "openai" "anthropic,google"
      rfl (by decide) rfl (by decide) (by decide)).2.1 (by decide) (by decide)]
    rfl
  · exact (getBestAvailableProvider_selection _ "openai" "anthropic,google"
      rfl (by decide) rfl (by decide) (by decide)).2.2.1 (by decide) (by decide)
      (by decide)
  · exact (getBestAvailableProvider_selection _ "openai" "anthropic,notaprovider"
      rfl (by decide) rfl (by decide) (by decide)).2.2.2 (by decide)
      ⟨"notaprovider", by decide, by decide⟩

/-! ## Targeted file reading (unified-read-files section of config-manager.ts)

`headFile` / `tailFile` / `rangeFile` read a file in fixed-size chunks
(1 KB in the source; any positive chunk size is modelled, so every possible
chunk-boundary cut is covered).  A file is its character list; a chunked read
is the decomposition of that list into consecutive pieces of the chunk size.
The development below proves that the chunk boundary is invisible: each
reader equals a whole-file function of `content.splitOn '\n'`. -/

/-- Effective chunk size (the source's constant is 1024; `max c 1` keeps the
model total for every `c`, and equals `c` for every positive `c`). -/
def chunkSz (c : ℕ) : ℕ := max c 1

def chunksOfAux (c : ℕ) : ℕ → List Char → List (List Char)
  | 0, _ => []
  | _ + 1, [] => []
  | fuel + 1, a :: t =>
    (a :: t).take (chunkSz c) :: chunksOfAux c fuel ((a :: t).drop (chunkSz c))

/-- The consecutive chunks a sequential chunked read of `l` delivers. -/
def chunksOf (c : ℕ) (l : List Char) : List (List Char) :=
  chunksOfAux c l.length l

theorem chunksOfAux_flatten (c : ℕ) :
    ∀ (fuel : ℕ) (l : List Char), l.length ≤ fuel →
      (chunksOfAux c fuel l).flatten = l := by
  intro fuel
  induction fuel with
  | zero =>
    intro l h
    have : l = [] := List.length_eq_zero.mp (Nat.le_antisymm h (Nat.zero_le _))
    subst this
    rfl
  | succ m ih =>
    intro l h
    cases l with
    | nil => rfl
    | cons a t =>
      rw [chunksOfAux, List.flatten_cons, ih]
      · exact List.take_append_drop _ _
      · have h1 : 1 ≤ chunkSz c := Nat.le_max_right c 1
        rw [List.length_drop]
        simp only [List.length_cons] at h ⊢
        omega

theorem chunksOf_flatten (c : ℕ) (l : List Char) :
    (chunksOf c l).flatten = l :=
  chunksOfAux_flatten c l.length l le_rfl

theorem splitOn_cons (a c : Char) (l : List Char) :
    (c :: l).splitOn a =
      if c = a then [] :: l.splitOn a
      else (l.splitOn a).modifyHead (c :: ·) := by
  rw [List.splitOn, List.splitOnP_cons]
  by_cases h : c = a
  · rw [if_pos (by simp [h]), if_pos h]
    rfl
  · rw [if_neg (by simp [h]), if_neg h]
    rfl

theorem splitOn_ne_nil (l : List Char) (a : Char) : l.splitOn a ≠ [] := by
  rw [List.splitOn]
  exact List.splitOnP_ne_nil _ l

theorem getLastD_irrel {α : Type} (l : List α) (h : l ≠ []) (d d' : α) :
    l.getLastD d = l.getLastD d' := by
  rw [List.getLastD_eq_getLast?, List.getLastD_eq_getLast?]
  cases hl : l.getLast? with
  | none => exact absurd (List.getLast?_eq_none_iff.mp hl) h
  | some x => rfl

theorem getLastD_append {α : Type} (A B : List α) (h : B ≠ []) (d : α) :
    (A ++ B).getLastD d = B.getLastD d := by
  induction A with
  | nil => rfl
  | cons a A ih =>
    rw [List.cons_append]
    have hne : A ++ B ≠ [] := by
      intro hc
      exact h (List.append_eq_nil.mp hc).2
    calc ((a :: (A ++ B))).getLastD d = (A ++ B).getLastD a := by
          rw [List.getLastD_cons]
      _ = (A ++ B).getLastD d := getLastD_irrel _ hne a d
      _ = B.getLastD d := ih

theorem dropLast_append {α : Type} (A B : List α) (h : B ≠ []) :
    (A ++ B).dropLast = A ++ B.dropLast := by
  induction A with
  | nil => rfl
  | cons a A ih =>
    have hne : A ++ B ≠ [] := by
      intro hc
      exact h (List.append_eq_nil.mp hc).2
    rw [List.cons_append, List.dropLast_cons_of_ne_nil hne, ih, List.cons_append]

/-- The chunk boundary is invisible to `splitOn`: splitting `u ++ v` is the
complete parts of `u` followed by the split of `u`'s carried tail glued onto
`v`. -/
theorem splitOn_append (u v : List Char) :
    (u ++ v).splitOn '\n' =
      (u.splitOn '\n').dropLast ++
        ((u.splitOn '\n').getLastD [] ++ v).splitOn '\n' := by
  induction u with
  | nil => simp [List.splitOn_nil]
  | cons c u ih =>
    by_cases hc : c = '\n'
    · subst hc
      rw [List.cons_append, splitOn_cons, if_pos rfl, splitOn_cons, if_pos rfl]
      have hne : u.splitOn '\n' ≠ [] := splitOn_ne_nil u '\n'
      rw [List.dropLast_cons_of_ne_nil hne]
      have hlast : (([] : List Char) :: u.splitOn '\n').getLastD [] =
          (u.splitOn '\n').getLastD [] := by
        rw [List.getLastD_cons]
      rw [hlast, List.cons_append, ih]
    · rw [List.cons_append, splitOn_cons, if_neg hc, splitOn_cons, if_neg hc, ih]
      cases hP : u.splitOn '\n' with
      | nil => exact absurd hP (splitOn_ne_nil u '\n')
      | cons p ps =>
        cases ps with
        | nil =>
          simp only [List.modifyHead_cons, List.dropLast_single, List.nil_append]
          have h1 : ([p] : List (List Char)).getLastD [] = p := rfl
          have h2 : ([c :: p] : List (List Char)).getLastD [] = c :: p := rfl
          rw [h1, h2, List.cons_append, splitOn_cons, if_neg hc]
        | cons q qs =>
          have hne : (q :: qs : List (List Char)) ≠ [] := List.cons_ne_nil q qs
          simp only [List.modifyHead_cons, List.dropLast_cons_of_ne_nil hne,
            List.getLastD_cons, List.cons_append]

theorem splitOn_parts_sepFree (l : List Char) :
    ∀ x ∈ l.splitOn '\n', '\n' ∉ x := by
  induction l with
  | nil =>
    intro x hx
    rw [List.splitOn_nil] at hx
    rcases List.mem_singleton.mp hx with rfl
    simp
  | cons c t ih =>
    intro x hx
    rw [splitOn_cons] at hx
    by_cases hc : c = '\n'
    · rw [if_pos hc] at hx
      rcases List.mem_cons.mp hx with rfl | hx'
      · simp
      · exact ih x hx'
    · rw [if_neg hc] at hx
      cases hP : t.splitOn '\n' with
      | nil => exact absurd hP (splitOn_ne_nil t '\n')
      | cons p ps =>
        rw [hP, List.modifyHead_cons] at hx
        rcases List.mem_cons.mp hx with rfl | hx'
        · intro hmem
          rcases List.mem_cons.mp hmem with h' | h'
          · exact hc h'.symm
          · exact ih p (by rw [hP]; exact List.mem_cons_self p ps) h'
        · exact ih x (by rw [hP]; exact List.mem_cons_of_mem p hx')

theorem sepFree_splitOn (l : List Char) (h : '\n' ∉ l) :
    l.splitOn '\n' = [l] := by
  rw [List.splitOn]
  refine List.splitOnP_eq_single _ _ ?_
  intro x hx
  simp only [beq_iff_eq]
  intro hx'
  subst hx'
  exact h hx

theorem getLastD_mem {α : Type} (l : List α) (h : l ≠ []) (d : α) :
    l.getLastD d ∈ l := by
  rw [List.getLastD_eq_getLast?, List.getLast?_eq_getLast l h]
  exact List.getLast_mem h

/-- The lines the incremental readers deliver: the raw `splitOn '\n'`, minus
the empty fragment a trailing newline produces (an empty file has no
lines). -/
def stdLines (content : List Char) : List (List Char) :=
  if (content.splitOn '\n').getLastD [] = [] then (content.splitOn '\n').dropLast
  else content.splitOn '\n'

theorem stdLines_append (u v : List Char) :
    stdLines (u ++ v) =
      (u.splitOn '\n').dropLast ++
        stdLines ((u.splitOn '\n').getLastD [] ++ v) := by
  unfold stdLines
  rw [splitOn_append]
  have hB : ((u.splitOn '\n').getLastD [] ++ v).splitOn '\n' ≠ [] :=
    splitOn_ne_nil _ _
  rw [getLastD_append _ _ hB, dropLast_append _ _ hB]
  by_cases h : (((u.splitOn '\n').getLastD [] ++ v).splitOn '\n').getLastD [] = []
  · rw [if_pos h, if_pos h]
  · rw [if_neg h, if_neg h]

theorem stdLines_sepFree (l : List Char) (h : '\n' ∉ l) :
    stdLines l = if l = [] then [] else [l] := by
  unfold stdLines
  rw [sepFree_splitOn l h]
  by_cases hl : l = []
  · subst hl
    simp
  · have h1 : ([l] : List (List Char)).getLastD [] = l := rfl
    rw [h1, if_neg hl, if_neg hl]

/-- The chunk loop of `headFile` (config-manager.ts lines 2518-2535): append
the chunk to the carry buffer, move every complete line (the split minus its
last part) into `lines`, keep the tail fragment, stop once `numLines`
complete lines are collected or the chunks are exhausted. -/
def headLoop (n : ℕ) :
    List (List Char) → List (List Char) → List Char →
      List (List Char) × List Char
  | [], lines, buffer => (lines, buffer)
  | k :: ks, lines, buffer =>
    if n ≤ lines.length then (lines, buffer)
    else
      headLoop n ks (lines ++ ((buffer ++ k).splitOn '\n').dropLast)
        (((buffer ++ k).splitOn '\n').getLastD [])

/-- `headFile` (config-manager.ts lines 2509-2547): chunked line collection,
the remaining buffer appended when EOF arrives before `numLines` complete
lines, then `lines.slice(0, numLines).join("\n")`. -/
def headFile (c n : ℕ) (content : List Char) : List Char :=
  let r := headLoop n (chunksOf c content) [] []
  let lines := if r.2 ≠ [] ∧ r.1.length < n then r.1 ++ [r.2] else r.1
  List.intercalate ['\n'] (lines.take n)

/-- The post-processing of `headFile` after its loop. -/
def headPost (n : ℕ) (r : List (List Char) × List Char) : List (List Char) :=
  (if r.2 ≠ [] ∧ r.1.length < n then r.1 ++ [r.2] else r.1).take n

theorem headLoop_stop (n : ℕ) (ks : List (List Char)) (lines : List (List Char))
    (buffer : List Char) (h : n ≤ lines.length) :
    headLoop n ks lines buffer = (lines, buffer) := by
  cases ks with
  | nil => rfl
  | cons k ks => rw [headLoop, if_pos h]

theorem headLoop_spec (n : ℕ) :
    ∀ (ks : List (List Char)) (lines : List (List Char)) (buffer : List Char),
      '\n' ∉ buffer → lines.length < n →
      headPost n (headLoop n ks lines buffer) =
        (lines ++ stdLines (buffer ++ ks.flatten)).take n := by
  intro ks
  induction ks with
  | nil =>
    intro lines buffer hbuf hlen
    rw [headLoop]
    unfold headPost
    rw [List.flatten_nil, List.append_nil, stdLines_sepFree buffer hbuf]
    by_cases hb : buffer = []
    · rw [if_pos hb, if_neg (by simp [hb])]
      simp
    · rw [if_neg hb, if_pos ⟨hb, hlen⟩]
  | cons k ks ih =>
    intro lines buffer hbuf hlen
    rw [headLoop, if_neg (by omega : ¬ n ≤ lines.length)]
    have hne := splitOn_ne_nil (buffer ++ k) '\n'
    have hbuf' : '\n' ∉ ((buffer ++ k).splitOn '\n').getLastD [] :=
      splitOn_parts_sepFree (buffer ++ k) _ (getLastD_mem _ hne [])
    rw [List.flatten_cons, ← List.append_assoc buffer k ks.flatten,
      stdLines_append (buffer ++ k) ks.flatten]
    by_cases hcase : (lines ++ ((buffer ++ k).splitOn '\n').dropLast).length < n
    · rw [ih _ _ hbuf' hcase, List.append_assoc]
    · have hge : n ≤ (lines ++ ((buffer ++ k).splitOn '\n').dropLast).length := by
        omega
      rw [headLoop_stop n ks _ _ hge]
      unfold headPost
      rw [if_neg (by
        dsimp only
        intro hcontra
        exact absurd hcontra.2 (by omega))]
      dsimp only
      rw [← List.append_assoc lines (((buffer ++ k).splitOn '\n').dropLast) _]
      conv_rhs => rw [List.take_append_of_le_length hge]

/-- C7 head characterization: for every chunk size and every `n ≥ 1`,
`headFile` returns the first `n` newline-terminated lines joined back with
newlines. -/
theorem headFile_eq (c n : ℕ) (content : List Char) (hn : 0 < n) :
    headFile c n content =
      List.intercalate ['\n'] ((stdLines content).take n) := by
  show List.intercalate ['\n']
      (headPost n (headLoop n (chunksOf c content) [] [])) = _
  rw [headLoop_spec n (chunksOf c content) [] [] (by simp) (by simpa using hn)]
  rw [chunksOf_flatten, List.nil_append, List.nil_append]

theorem slice_append {α : Type} (A B : List α) (a b : ℕ) :
    ((A ++ B).take a).drop b =
      (A.take a).drop b ++
        ((B.take (a - min A.length a)).drop (b - min A.length a)) := by
  rw [List.take_append_eq_append_take, List.drop_append_eq_append_drop,
    List.length_take]
  have h1 : a - A.length = a - min A.length a := by omega
  have h2 : b - min a A.length = b - min A.length a := by omega
  rw [h1, h2]

/-- The inner line loop of `rangeFile` (config-manager.ts lines 2647-2656):
count each complete line, collect those whose 1-indexed number lies in
`[startLine, endLine]`, break once `endLine` is reached. -/
def pushLines (s e : ℕ) :
    List (List Char) → ℕ → List (List Char) → ℕ × List (List Char)
  | [], cur, tgt => (cur, tgt)
  | line :: rest, cur, tgt =>
    if e ≤ cur + 1 then
      (cur + 1, if s ≤ cur + 1 ∧ cur + 1 ≤ e then tgt ++ [line] else tgt)
    else
      pushLines s e rest (cur + 1)
        (if s ≤ cur + 1 ∧ cur + 1 ≤ e then tgt ++ [line] else tgt)

theorem pushLines_spec (s e : ℕ) (hs : 1 ≤ s) :
    ∀ (ls : List (List Char)) (cur : ℕ) (tgt : List (List Char)), cur < e →
      pushLines s e ls cur tgt =
        (cur + min ls.length (e - cur),
         tgt ++ ((ls.take (e - cur)).drop (s - 1 - cur))) := by
  intro ls
  induction ls with
  | nil =>
    intro cur tgt hcur
    simp [pushLines]
  | cons line rest ih =>
    intro cur tgt hcur
    rw [pushLines]
    by_cases hbreak : e ≤ cur + 1
    · rw [if_pos hbreak]
      have he1 : e - cur = 1 := by omega
      have ht : (line :: rest).take 1 = [line] := rfl
      by_cases hpush : s ≤ cur + 1 ∧ cur + 1 ≤ e
      · rw [if_pos hpush, he1, ht, show s - 1 - cur = 0 from by omega,
          List.drop_zero]
        simp only [Prod.mk.injEq]
        refine ⟨by simp only [List.length_cons]; omega, ?_⟩
        trivial
      · rw [if_neg hpush, he1, ht]
        have hs1 : ¬ s ≤ cur + 1 := fun h => hpush ⟨h, by omega⟩
        rw [List.drop_eq_nil_of_le (by simp only [List.length_singleton]; omega),
          List.append_nil]
        simp only [Prod.mk.injEq]
        refine ⟨by simp only [List.length_cons]; omega, ?_⟩
        trivial
    · rw [if_neg hbreak]
      have htake : (line :: rest).take (e - cur) = line :: rest.take (e - cur - 1) := by
        conv_lhs => rw [show e - cur = (e - cur - 1) + 1 from by omega]
        rw [List.take_succ_cons]
      by_cases hpush : s ≤ cur + 1 ∧ cur + 1 ≤ e
      · rw [if_pos hpush, ih (cur + 1) (tgt ++ [line]) (by omega)]
        rw [show s - 1 - cur = 0 from by omega,
          show s - 1 - (cur + 1) = 0 from by omega, htake,
          List.drop_zero, List.drop_zero, List.append_assoc,
          List.singleton_append]
        simp only [Prod.mk.injEq]
        refine ⟨by simp only [List.length_cons]; omega, ?_⟩
        rw [show e - (cur + 1) = e - cur - 1 from by omega]
      · rw [if_neg hpush, ih (cur + 1) tgt (by omega)]
        have hs1 : ¬ s ≤ cur + 1 := fun h => hpush ⟨h, by omega⟩
        have hdrop : ((line :: rest.take (e - cur - 1)).drop (s - 1 - cur)) =
            (rest.take (e - cur - 1)).drop (s - 1 - (cur + 1)) := by
          conv_lhs => rw [show s - 1 - cur = (s - 1 - (cur + 1)) + 1 from by omega]
          rw [List.drop_succ_cons]
        rw [htake, hdrop]
        simp only [Prod.mk.injEq]
        refine ⟨by simp only [List.length_cons]; omega, ?_⟩
        rw [show e - (cur + 1) = e - cur - 1 from by omega]

/-- The chunk loop of `rangeFile` (config-manager.ts lines 2623-2658): scan
forward counting line boundaries, stop as soon as `endLine` is reached; at
EOF the nonempty carry buffer counts as the final (unterminated) line. -/
def rangeLoop (s e : ℕ) :
    List (List Char) → ℕ → List (List Char) → List Char → List (List Char)
  | [], cur, tgt, buffer =>
    if e ≤ cur then tgt
    else if buffer ≠ [] then
      if s ≤ cur + 1 ∧ cur + 1 ≤ e then tgt ++ [buffer] else tgt
    else tgt
  | k :: ks, cur, tgt, buffer =>
    if e ≤ cur then tgt
    else
      rangeLoop s e ks
        (pushLines s e ((buffer ++ k).splitOn '\n').dropLast cur tgt).1
        (pushLines s e ((buffer ++ k).splitOn '\n').dropLast cur tgt).2
        (((buffer ++ k).splitOn '\n').getLastD [])

/-- `rangeFile` (config-manager.ts lines 2607-2664): the collected lines
joined with newlines. -/
def rangeFile (c s e : ℕ) (content : List Char) : List Char :=
  List.intercalate ['\n'] (rangeLoop s e (chunksOf c content) 0 [] [])

theorem rangeLoop_spec (s e : ℕ) (hs : 1 ≤ s) :
    ∀ (ks : List (List Char)) (cur : ℕ) (tgt : List (List Char))
      (buffer : List Char), '\n' ∉ buffer →
      rangeLoop s e ks cur tgt buffer =
        tgt ++ (((stdLines (buffer ++ ks.flatten)).take (e - cur)).drop
          (s - 1 - cur)) := by
  intro ks
  induction ks with
  | nil =>
    intro cur tgt buffer hbuf
    rw [rangeLoop, List.flatten_nil, List.append_nil,
      stdLines_sepFree buffer hbuf]
    by_cases hcur : e ≤ cur
    · rw [if_pos hcur, show e - cur = 0 from by omega, List.take_zero,
        List.drop_nil, List.append_nil]
    · rw [if_neg hcur]
      by_cases hb : buffer = []
      · rw [if_neg (by simp [hb]), if_pos hb]
        simp
      · rw [if_pos hb, if_neg hb]
        have htake : ([buffer] : List (List Char)).take (e - cur) = [buffer] :=
          List.take_of_length_le (by simp only [List.length_singleton]; omega)
        rw [htake]
        by_cases hpush : s ≤ cur + 1 ∧ cur + 1 ≤ e
        · rw [if_pos hpush, show s - 1 - cur = 0 from by omega, List.drop_zero]
        · rw [if_neg hpush]
          have hs1 : ¬ s ≤ cur + 1 := fun h => hpush ⟨h, by omega⟩
          rw [List.drop_eq_nil_of_le (by simp only [List.length_singleton]; omega),
            List.append_nil]
  | cons k ks ih =>
    intro cur tgt buffer hbuf
    rw [rangeLoop]
    by_cases hcur : e ≤ cur
    · rw [if_pos hcur, show e - cur = 0 from by omega, List.take_zero,
        List.drop_nil, List.append_nil]
    · rw [if_neg hcur]
      have hne := splitOn_ne_nil (buffer ++ k) '\n'
      have hbuf' : '\n' ∉ ((buffer ++ k).splitOn '\n').getLastD [] :=
        splitOn_parts_sepFree _ _ (getLastD_mem _ hne [])
      rw [pushLines_spec s e hs _ cur tgt (by omega)]
      dsimp only
      rw [ih _ _ _ hbuf']
      rw [List.flatten_cons, ← List.append_assoc buffer k,
        stdLines_append (buffer ++ k)]
      rw [List.append_assoc]
      set A := ((buffer ++ k).splitOn '\n').dropLast with hA
      set L := stdLines (((buffer ++ k).splitOn '\n').getLastD [] ++ ks.flatten)
        with hL
      rw [show e - (cur + min A.length (e - cur)) =
        e - cur - min A.length (e - cur) from by omega]
      rw [show s - 1 - (cur + min A.length (e - cur)) =
        s - 1 - cur - min A.length (e - cur) from by omega]
      rw [slice_append A L (e - cur) (s - 1 - cur)]

/-- C7 range characterization: for every chunk size and `1 ≤ s`, `rangeFile`
returns lines `s` through `e` (1-indexed, inclusive) of the
newline-terminated lines, joined back with newlines. -/
theorem rangeFile_eq (c s e : ℕ) (content : List Char) (hs : 1 ≤ s) :
    rangeFile c s e content =
      List.intercalate ['\n'] (((stdLines content).take e).drop (s - 1)) := by
  unfold rangeFile
  rw [rangeLoop_spec s e hs (chunksOf c content) 0 [] [] (by simp)]
  rw [chunksOf_flatten, List.nil_append, List.nil_append,
    Nat.sub_zero, Nat.sub_zero]

/-- JS `arr.slice(-n)` for `n ≥ 1`: the last `n` elements. -/
def jsSliceLast {α : Type} (n : ℕ) (l : List α) : List α :=
  l.drop (l.length - n)

theorem jsSliceLast_of_le {α : Type} (n : ℕ) (l : List α) (h : l.length ≤ n) :
    jsSliceLast n l = l := by
  unfold jsSliceLast
  rw [show l.length - n = 0 from by omega, List.drop_zero]

theorem jsSliceLast_append_ge {α : Type} (n : ℕ) (X Y : List α)
    (h : n ≤ Y.length) : jsSliceLast n (X ++ Y) = jsSliceLast n Y := by
  unfold jsSliceLast
  rw [List.length_append, List.drop_append_eq_append_drop,
    List.drop_eq_nil_of_le (by omega : X.length ≤ X.length + Y.length - n),
    show X.length + Y.length - n - X.length = Y.length - n from by omega,
    List.nil_append]

theorem headI_cons_tail {α : Type} [Inhabited α] (l : List α) (h : l ≠ []) :
    l.headI :: l.tail = l := by
  cases l with
  | nil => exact absurd rfl h
  | cons a t => rfl

/-- Gluing a separator-free head fragment onto a split. -/
theorem sepFree_append_splitOn (g x : List Char) (hg : '\n' ∉ g)
    (p : List Char) (ps : List (List Char)) (hx : x.splitOn '\n' = p :: ps) :
    (g ++ x).splitOn '\n' = (g ++ p) :: ps := by
  induction g with
  | nil => simpa using hx
  | cons ch g ihg =>
    have hch : ¬ ch = '\n' := fun h => hg (by rw [h]; exact List.mem_cons_self _ _)
    rw [List.cons_append, splitOn_cons, if_neg hch,
      ihg fun h => hg (List.mem_cons_of_mem _ h), List.modifyHead_cons,
      List.cons_append]

/-- One backward chunk of `tailFile` (config-manager.ts lines 2579-2590):
split `text ++ remainingText`, carry `parts[0]`, prepend the last
`min (numLines - linesFound) (parts.length - 1)` remaining parts, in order,
onto the collected lines. -/
def tailStep (n : ℕ) (text remaining : List Char) (ls : List (List Char))
    (found : ℕ) : List (List Char) × ℕ × List Char :=
  let parts := (text ++ remaining).splitOn '\n'
  let tp := parts.tail
  let j := min (n - found) tp.length
  (tp.drop (tp.length - j) ++ ls, found + j, parts.headI)

theorem tailStep_eq (n : ℕ) (text remaining : List Char)
    (ls : List (List Char)) (found : ℕ) :
    tailStep n text remaining ls found =
      (((text ++ remaining).splitOn '\n').tail.drop
          (((text ++ remaining).splitOn '\n').tail.length -
            min (n - found) ((text ++ remaining).splitOn '\n').tail.length) ++ ls,
       found + min (n - found) ((text ++ remaining).splitOn '\n').tail.length,
       ((text ++ remaining).splitOn '\n').headI) := rfl

/-- The backward chunk loop of `tailFile` (config-manager.ts lines
2569-2591), with explicit fuel — any `fuel ≥ position` behaves exactly like
the source's `while (position > 0 && linesFound < numLines)` loop reading
`min(CHUNK_SIZE, position)` bytes ending at `position`. -/
def tailLoopAux (c n : ℕ) (content : List Char) :
    ℕ → ℕ → List (List Char) → ℕ → List Char →
      List (List Char) × ℕ × List Char
  | 0, _, ls, found, remaining => (ls, found, remaining)
  | fuel + 1, position, ls, found, remaining =>
    if position = 0 ∨ n ≤ found then (ls, found, remaining)
    else
      tailLoopAux c n content fuel (position - min (chunkSz c) position)
        (tailStep n
          ((content.drop (position - min (chunkSz c) position)).take
            (min (chunkSz c) position)) remaining ls found).1
        (tailStep n
          ((content.drop (position - min (chunkSz c) position)).take
            (min (chunkSz c) position)) remaining ls found).2.1
        (tailStep n
          ((content.drop (position - min (chunkSz c) position)).take
            (min (chunkSz c) position)) remaining ls found).2.2

/-- The post-processing of `tailFile`: the conditional unshift of the last
carried fragment, then `lines.slice(-numLines)`. -/
def tailPost (n : ℕ) (r : List (List Char) × ℕ × List Char) :
    List (List Char) :=
  jsSliceLast n (if r.2.1 < n ∧ r.2.2 ≠ [] then r.2.2 :: r.1 else r.1)

/-- `tailFile` (config-manager.ts lines 2552-2602). -/
def tailFile (c n : ℕ) (content : List Char) : List Char :=
  if content = [] then []
  else
    List.intercalate ['\n']
      (tailPost n
        (tailLoopAux c n content content.length content.length [] 0 []))

/-- What `tailFile` produces, as a whole-file function: the last `n` parts of
the raw split — except that when the whole split fits within `n` lines and
its first part is empty (the file starts with a newline, or is empty), that
leading empty part is dropped. -/
def tailSpecLines (n : ℕ) (content : List Char) : List (List Char) :=
  if (content.splitOn '\n').length ≤ n ∧ (content.splitOn '\n').headI = []
  then (content.splitOn '\n').tail
  else jsSliceLast n (content.splitOn '\n')

theorem tailLoopAux_stop (c n : ℕ) (content : List Char)
    (fuel position : ℕ) (ls : List (List Char)) (found : ℕ)
    (remaining : List Char) (h : n ≤ found) :
    tailLoopAux c n content fuel position ls found remaining =
      (ls, found, remaining) := by
  cases fuel with
  | zero => rfl
  | succ m => rw [tailLoopAux, if_pos (Or.inr h)]

/-- The loop state at exhaustion (`position = 0`): the conditional unshift
and final slice produce the whole-file tail lines. -/
theorem tailExhausted (n : ℕ) (content : List Char) (Q : List (List Char))
    (remaining : List Char) (hsplit : content.splitOn '\n' = remaining :: Q)
    (hQ : Q.length < n) :
    tailPost n (Q, Q.length, remaining) = tailSpecLines n content := by
  unfold tailPost tailSpecLines
  dsimp only
  rw [hsplit]
  by_cases hrem : remaining = []
  · subst hrem
    rw [if_neg (by simp)]
    rw [if_pos ⟨by simp only [List.length_cons]; omega, rfl⟩]
    rw [List.tail_cons]
    exact jsSliceLast_of_le n Q (by omega)
  · rw [if_pos ⟨hQ, hrem⟩]
    rw [if_neg (fun hc => hrem (by simpa using hc.2))]

/-- Loop invariant for `tailLoopAux`: if the suffix of the file from
`position` splits as `remaining :: Q`, the collected lines are exactly `Q`
with fewer than `n` found, then running the loop and post-processing yields
the whole-file tail lines. -/
theorem tailLoopAux_spec (c n : ℕ) (content : List Char) :
    ∀ (fuel position : ℕ) (Q : List (List Char)) (remaining : List Char),
      position ≤ fuel →
      (content.drop position).splitOn '\n' = remaining :: Q →
      Q.length < n →
      tailPost n (tailLoopAux c n content fuel position Q Q.length remaining) =
        tailSpecLines n content := by
  intro fuel
  induction fuel with
  | zero =>
    intro position Q remaining hfuel hsplit hQ
    have hpos : position = 0 := by omega
    subst hpos
    rw [List.drop_zero] at hsplit
    exact tailExhausted n content Q remaining hsplit hQ
  | succ m ih =>
    intro position Q remaining hfuel hsplit hQ
    by_cases hpos : position = 0
    · subst hpos
      rw [tailLoopAux, if_pos (Or.inl rfl)]
      rw [List.drop_zero] at hsplit
      exact tailExhausted n content Q remaining hsplit hQ
    · rw [tailLoopAux, if_neg (by push_neg; exact ⟨hpos, by omega⟩)]
      rw [tailStep_eq]
      dsimp only
      set csize := min (chunkSz c) position with hcsize
      set text := (content.drop (position - csize)).take csize with htext
      set P := (text ++ remaining).splitOn '\n' with hP
      have hc1 : 1 ≤ chunkSz c := le_max_right c 1
      have hcs1 : 1 ≤ csize := by
        rw [hcsize]
        exact le_min hc1 (by omega)
      have hcsle : csize ≤ position := min_le_right _ _
      have hdecomp : content.drop (position - csize) =
          text ++ content.drop position := by
        have h1 : (content.drop (position - csize)).drop csize =
            content.drop position := by
          rw [List.drop_drop]
          congr 1
          omega
        conv_lhs => rw [← List.take_append_drop csize
          (content.drop (position - csize))]
        rw [h1]
      have hrem_sf : '\n' ∉ remaining := by
        have hm : remaining ∈ (content.drop position).splitOn '\n' := by
          rw [hsplit]
          exact List.mem_cons_self _ _
        exact splitOn_parts_sepFree _ _ hm
      have hg_sf : '\n' ∉ (text.splitOn '\n').getLastD [] :=
        splitOn_parts_sepFree _ _
          (getLastD_mem _ (splitOn_ne_nil text '\n') [])
      have hPdecomp : P = (text.splitOn '\n').dropLast ++
          [(text.splitOn '\n').getLastD [] ++ remaining] := by
        rw [hP, splitOn_append]
        congr 1
        exact sepFree_splitOn _ (by
          intro hmem
          rcases List.mem_append.mp hmem with h | h
          · exact hg_sf h
          · exact hrem_sf h)
      have hPne : P ≠ [] := by
        rw [hP]
        exact splitOn_ne_nil _ '\n'
      have hsuffix : (content.drop (position - csize)).splitOn '\n' =
          P ++ Q := by
        rw [hdecomp, splitOn_append,
          sepFree_append_splitOn _ _ hg_sf remaining Q hsplit, hPdecomp,
          List.append_assoc, List.singleton_append]
      have hsuffix2 : (content.drop (position - csize)).splitOn '\n' =
          P.headI :: (P.tail ++ Q) := by
        rw [hsuffix, ← headI_cons_tail P hPne, List.cons_append,
          List.headI_cons, List.tail_cons]
      by_cases hfill : n - Q.length ≤ P.tail.length
      · -- enough lines in this chunk: the loop stops with exactly n lines
        have hmin : min (n - Q.length) P.tail.length = n - Q.length :=
          min_eq_left hfill
        rw [hmin, tailLoopAux_stop c n content m _ _ _ _ (by omega)]
        unfold tailPost
        dsimp only
        rw [if_neg (by omega)]
        have hlen : (P.tail.drop (P.tail.length - (n - Q.length)) ++ Q).length
            = n := by
          rw [List.length_append, List.length_drop]
          omega
        rw [jsSliceLast_of_le _ _ (le_of_eq hlen)]
        -- now identify the slice with the whole-file tail
        have hA_sf : '\n' ∉
            ((content.take (position - csize)).splitOn '\n').getLastD [] :=
          splitOn_parts_sepFree _ _
            (getLastD_mem _ (splitOn_ne_nil _ '\n') [])
        have hcontent : content.splitOn '\n' =
            (((content.take (position - csize)).splitOn '\n').dropLast ++
              [((content.take (position - csize)).splitOn '\n').getLastD []
                ++ P.headI]) ++ (P.tail ++ Q) := by
          conv_lhs => rw [← List.take_append_drop (position - csize) content]
          rw [splitOn_append,
            sepFree_append_splitOn _ _ hA_sf _ _ hsuffix2,
            List.append_assoc, List.singleton_append]
        unfold tailSpecLines
        rw [if_neg (by
          intro hcond
          have hlenc := hcond.1
          rw [hcontent] at hlenc
          rw [List.length_append, List.length_append, List.length_append]
            at hlenc
          simp only [List.length_cons, List.length_nil] at hlenc
          omega)]
        rw [hcontent, jsSliceLast_append_ge n _ _ (by
          rw [List.length_append]; omega)]
        unfold jsSliceLast
        rw [List.length_append,
          List.drop_append_eq_append_drop,
          show P.tail.length + Q.length - n - P.tail.length = 0 from by omega,
          List.drop_zero,
          show P.tail.length + Q.length - n =
            P.tail.length - (n - Q.length) from by omega]
      · -- not enough lines yet: apply the induction hypothesis
        have hmin : min (n - Q.length) P.tail.length = P.tail.length :=
          min_eq_right (by omega)
        rw [hmin, show P.tail.length - P.tail.length = 0 from by omega,
          List.drop_zero,
          show Q.length + P.tail.length = (P.tail ++ Q).length from by
            rw [List.length_append]; omega]
        exact ih (position - csize) (P.tail ++ Q) P.headI (by omega)
          hsuffix2 (by rw [List.length_append]; omega)

/-- Closed-form characterization of `tailFile`. -/
theorem tailFile_eq (c n : ℕ) (content : List Char) (hn : 1 ≤ n) :
    tailFile c n content =
      List.intercalate ['\n'] (tailSpecLines n content) := by
  unfold tailFile
  by_cases hc : content = []
  · subst hc
    rw [if_pos rfl]
    have h1 : (([] : List Char)).splitOn '\n' = [[]] := rfl
    unfold tailSpecLines
    rw [h1, if_pos ⟨by simp only [List.length_cons, List.length_nil]; omega,
      rfl⟩, List.tail_cons]
    rfl
  · rw [if_neg hc]
    congr 1
    have hsplit : (content.drop content.length).splitOn '\n' = [] :: [] := by
      rw [List.drop_length]
      rfl
    have := tailLoopAux_spec c n content content.length content.length [] []
      (le_refl _) hsplit (by simpa using hn)
    simpa using this

/-- Naive reference from the spec's words: read the whole file, split on
newline. -/
def naiveLines (content : List Char) : List (List Char) :=
  content.splitOn '\n'

/-- Naive reference from the spec's words: the first `n` lines of a full
read split on newline, joined back. -/
def naiveHead (n : ℕ) (content : List Char) : List Char :=
  List.intercalate ['\n'] ((naiveLines content).take n)

/-- Naive reference from the spec's words: the last `n` lines of a full read
split on newline, joined back. -/
def naiveTail (n : ℕ) (content : List Char) : List Char :=
  List.intercalate ['\n']
    ((naiveLines content).drop ((naiveLines content).length - n))

/-- Naive reference from the spec's words: lines `s` through `e` (1-indexed,
inclusive) of a full read split on newline, joined back. -/
def naiveRange (s e : ℕ) (content : List Char) : List Char :=
  List.intercalate ['\n'] (((naiveLines content).take e).drop (s - 1))

theorem stdLines_take_eq (content : List Char) (k : ℕ)
    (h : k ≤ (stdLines content).length) :
    (stdLines content).take k = (content.splitOn '\n').take k := by
  unfold stdLines at h ⊢
  by_cases hlast : (content.splitOn '\n').getLastD [] = []
  · rw [if_pos hlast] at h ⊢
    have hlen : k ≤ (content.splitOn '\n').length - 1 := by
      rw [List.length_dropLast] at h
      exact h
    rw [List.dropLast_eq_take, List.take_take, min_eq_left hlen]
  · rw [if_neg hlast]

/-- C7 counterexample: at the mode-specific boundary the incremental readers
do NOT agree with the naive read-whole-file-and-slice reference. With the
source's 1024-byte chunks, `head(2)` of the two-byte file "a\n" returns "a"
while the naive reference returns "a\n" (the raw split has a trailing empty
part the reader never counts as a line), and `tail(2)` of "\na" returns "a"
while the naive reference returns "\na" (the reader drops a leading empty
fragment when the whole split fits in `n` lines). -/
theorem head_tail_range_naive_cex :
    headFile 1024 2 ['a', '\n'] ≠ naiveHead 2 ['a', '\n'] ∧
    tailFile 1024 2 ['\n', 'a'] ≠ naiveTail 2 ['\n', 'a'] := by
  constructor <;> decide

/-- C7 (corrected): closed-form behaviour of the three incremental readers
for every chunk size `c`, every `n ≥ 1` and every `startLine s ≥ 1`.
`headFile` returns the first `n` newline-terminated lines (`stdLines`: the
raw split minus the empty fragment a trailing newline produces); `tailFile`
returns the last `n` parts of the raw split, except that a leading empty
part is dropped when the whole split fits within `n`; `rangeFile` returns
newline-terminated lines `s..e`. Consequently each reader agrees with the
naive read-whole-file-then-slice reference away from the boundary: `head`
when `n` is at most the terminated-line count, `tail` when `n` is strictly
below the raw part count, `range` when `e` is at most the terminated-line
count; and an empty file yields empty content in all three modes. -/
theorem head_tail_range_naive_refinement (c n s e : ℕ) (content : List Char)
    (hn : 1 ≤ n) (hs : 1 ≤ s) :
    headFile c n content =
      List.intercalate ['\n'] ((stdLines content).take n) ∧
    tailFile c n content =
      List.intercalate ['\n'] (tailSpecLines n content) ∧
    rangeFile c s e content =
      List.intercalate ['\n'] (((stdLines content).take e).drop (s - 1)) ∧
    (n ≤ (stdLines content).length →
      headFile c n content = naiveHead n content) ∧
    (n < (content.splitOn '\n').length →
      tailFile c n content = naiveTail n content) ∧
    (e ≤ (stdLines content).length →
      rangeFile c s e content = naiveRange s e content) ∧
    (headFile c n [] = [] ∧ tailFile c n [] = [] ∧ rangeFile c s e [] = []) := by
  have hstd0 : stdLines ([] : List Char) = [] := rfl
  refine ⟨headFile_eq c n content hn, tailFile_eq c n content hn,
    rangeFile_eq c s e content hs, ?_, ?_, ?_, ?_, ?_, ?_⟩
  · intro h
    rw [headFile_eq c n content hn]
    unfold naiveHead naiveLines
    rw [stdLines_take_eq content n h]
  · intro h
    rw [tailFile_eq c n content hn]
    unfold naiveTail naiveLines tailSpecLines
    rw [if_neg (fun hc => absurd hc.1 (by omega))]
    rfl
  · intro h
    rw [rangeFile_eq c s e content hs]
    unfold naiveRange naiveLines
    rw [stdLines_take_eq content e h]
  · rw [headFile_eq c n [] hn, hstd0, List.take_nil]
    rfl
  · rfl
  · rw [rangeFile_eq c s e [] hs, hstd0, List.take_nil, List.drop_nil]
    rfl

theorem head_tail_range_naive_refinement_witness :
    headFile 3 1 ['b', '\n', 'a'] = ['b'] ∧
    tailFile 3 1 ['b', '\n', 'a'] = ['a'] ∧
    rangeFile 3 1 2 ['b', '\n', 'a'] = ['b', '\n', 'a'] := by
  have h := head_tail_range_naive_refinement 3 1 1 2 ['b', '\n', 'a']
    (by decide) (by decide)
  exact ⟨h.1.trans (by decide), h.2.1.trans (by decide),
    h.2.2.1.trans (by decide)⟩

/-! Batch file reading (config-manager.ts `readSingleFile` lines 2669-2718,
`readMultipleFilesTool` lines 2723-2764, Zod schemas in
types/internal-tool-types.ts lines 16-99).  The filesystem is an external
collaborator: a map from path to either the file's character content or the
error message the read rejects with (missing file, permission denied). -/

/-- The four values of the `mode` enum of `ReadFileArgsSchema`. -/
inductive ReadMode
  | full
  | head
  | tail
  | range
  deriving DecidableEq

/-- One file read request (`ReadFileArgsSchema` input shape): `mode` and the
three numeric fields are optional; numbers are modelled as integers since
the schema constrains them to positive ints. -/
structure ReadFileArgs where
  path : String
  mode : Option ReadMode
  lines : Option ℤ
  startLine : Option ℤ
  endLine : Option ℤ
  deriving DecidableEq

/-- Zod `.number().positive().int().optional()`: passes when absent or a
positive integer. -/
def zodPosInt (o : Option ℤ) : Bool :=
  o.all fun v => decide (0 < v)

/-- JS truthiness of an optional numeric field: `!data.lines` is false
exactly when the field is present and nonzero. -/
def jsTruthyInt (o : Option ℤ) : Bool :=
  match o with
  | none => false
  | some v => !(decide (v = 0))

/-- The `.refine` of `ReadFileArgsSchema` (internal-tool-types.ts lines
47-80), evaluated after the `mode` default `"full"` is applied:
head/tail require truthy `lines` and forbid `startLine`/`endLine`; range
requires truthy bounds with `startLine ≤ endLine` and forbids `lines`; full
forbids all three. -/
def readFileRefine (a : ReadFileArgs) : Bool :=
  match a.mode.getD ReadMode.full with
  | ReadMode.head =>
    jsTruthyInt a.lines && a.startLine.isNone && a.endLine.isNone
  | ReadMode.tail =>
    jsTruthyInt a.lines && a.startLine.isNone && a.endLine.isNone
  | ReadMode.range =>
    jsTruthyInt a.startLine && jsTruthyInt a.endLine &&
      !(decide (a.endLine.getD 0 < a.startLine.getD 0)) && a.lines.isNone
  | ReadMode.full =>
    a.lines.isNone && a.startLine.isNone && a.endLine.isNone

/-- Whether `ReadFileArgsSchema.parse` succeeds on a request. -/
def readFileArgsOk (a : ReadFileArgs) : Bool :=
  zodPosInt a.lines && zodPosInt a.startLine && zodPosInt a.endLine &&
    readFileRefine a

/-- Result shape of `readSingleFile` (`ReadFileResult`). -/
structure ReadFileResult where
  success : Bool
  content : Option (List Char)
  error : Option String
  deriving DecidableEq

/-- The message of the ZodError thrown when `ReadFileArgsSchema.parse`
rejects (the schema's refine message; the exact wording is irrelevant to
the results below). -/
def zodReadFileErrorMessage : String :=
  "Invalid parameter combination."

/-- An external read of a file: the content, or the error message of the
exception the filesystem raises. -/
def FSModel : Type := String → Except String (List Char)

/-- `readSingleFile` (config-manager.ts lines 2669-2718): Zod-parse the
request, dispatch on mode to the chunked readers (chunk size 1024) or a full
read, wrap success as `{success:true, content}`; every thrown error — parse
failure, the mode guards, or a filesystem error — is caught and returned as
`{success:false, error}`. -/
def readSingleFile (fs : FSModel) (a : ReadFileArgs) : ReadFileResult :=
  if readFileArgsOk a then
    match a.mode.getD ReadMode.full with
    | ReadMode.head =>
      if !(jsTruthyInt a.lines) then
        ⟨false, none, some "'lines' parameter required for head mode"⟩
      else
        match fs a.path with
        | Except.ok content =>
          ⟨true, some (headFile 1024 (a.lines.getD 0).toNat content), none⟩
        | Except.error e => ⟨false, none, some e⟩
    | ReadMode.tail =>
      if !(jsTruthyInt a.lines) then
        ⟨false, none, some "'lines' parameter required for tail mode"⟩
      else
        match fs a.path with
        | Except.ok content =>
          ⟨true, some (tailFile 1024 (a.lines.getD 0).toNat content), none⟩
        | Except.error e => ⟨false, none, some e⟩
    | ReadMode.range =>
      if !(jsTruthyInt a.startLine) || !(jsTruthyInt a.endLine) then
        ⟨false, none,
          some "'startLine' and 'endLine' parameters required for range mode"⟩
      else
        match fs a.path with
        | Except.ok content =>
          ⟨true, some (rangeFile 1024 (a.startLine.getD 0).toNat
            (a.endLine.getD 0).toNat content), none⟩
        | Except.error e => ⟨false, none, some e⟩
    | ReadMode.full =>
      match fs a.path with
      | Except.ok content => ⟨true, some content, none⟩
      | Except.error e => ⟨false, none, some e⟩
  else ⟨false, none, some zodReadFileErrorMessage⟩

/-- One entry of `ReadMultipleFilesResult.results`. -/
structure FileResultSlot where
  path : String
  content : Option (List Char)
  error : Option String
  deriving DecidableEq

/-- Result shape of `readMultipleFilesTool` (`ReadMultipleFilesResult`). -/
structure ReadMultipleFilesResult where
  success : Bool
  results : List FileResultSlot
  deriving DecidableEq

/-- Batch argument shape (`ReadMultipleFilesArgs`). -/
structure ReadMultipleFilesArgs where
  files : List ReadFileArgs
  deriving DecidableEq

/-- The `.min(1).max(50)` arity bound of `ReadMultipleFilesArgsSchema`
(internal-tool-types.ts lines 91-99). -/
def readMultipleFilesArityOk (args : ReadMultipleFilesArgs) : Bool :=
  decide (1 ≤ args.files.length) && decide (args.files.length ≤ 50)

/-- The slot `readMultipleFilesTool` builds for one request: the request's
path with the content and error of its own single-file read. -/
def slotOf (fs : FSModel) (a : ReadFileArgs) : FileResultSlot :=
  ⟨a.path, (readSingleFile fs a).content, (readSingleFile fs a).error⟩

/-- `readMultipleFilesTool` (config-manager.ts lines 2723-2764):
`ReadMultipleFilesArgsSchema.parse` (arity bound plus every element
re-validated by `ReadFileRequestSchema`), then all reads issued via
`Promise.all` and collected into per-file slots in input order under a
batch-level `success:true`; a parse failure is caught and returned as
`{success:false, results:[]}`. -/
def readMultipleFilesTool (fs : FSModel) (args : ReadMultipleFilesArgs) :
    ReadMultipleFilesResult :=
  if readMultipleFilesArityOk args && args.files.all readFileArgsOk then
    ⟨true, args.files.map (slotOf fs)⟩
  else ⟨false, []⟩

theorem readFileArgsOk_refine (a : ReadFileArgs)
    (h : readFileArgsOk a = true) : readFileRefine a = true := by
  unfold readFileArgsOk at h
  simp only [Bool.and_eq_true] at h
  tauto

/-- C9: for every filesystem and every batch that passes schema validation
(1-50 requests, each with a valid mode/parameter combination), the batch
call reports success with one result slot per request in input order; each
slot is a function of its own request alone (so one bad path cannot affect
a sibling); a request whose filesystem read fails gets a slot carrying the
error message and no content, while a request whose read succeeds has a
successful single read and an error-free slot. -/
theorem readMultipleFiles_batch_isolation (fs : FSModel)
    (files : List ReadFileArgs)
    (h1 : 1 ≤ files.length) (h2 : files.length ≤ 50)
    (hok : ∀ a ∈ files, readFileArgsOk a = true) :
    (readMultipleFilesTool fs ⟨files⟩).success = true ∧
    (readMultipleFilesTool fs ⟨files⟩).results = files.map (slotOf fs) ∧
    (∀ a ∈ files, ∀ msg, fs a.path = Except.error msg →
      slotOf fs a = ⟨a.path, none, some msg⟩) ∧
    (∀ a ∈ files, ∀ content, fs a.path = Except.ok content →
      (readSingleFile fs a).success = true ∧ (slotOf fs a).error = none) := by
  have hguard :
      (readMultipleFilesArityOk ⟨files⟩ && files.all readFileArgsOk) = true := by
    rw [Bool.and_eq_true]
    constructor
    · unfold readMultipleFilesArityOk
      simp only [Bool.and_eq_true, decide_eq_true_eq]
      exact ⟨h1, h2⟩
    · rw [List.all_eq_true]
      exact hok
  refine ⟨?_, ?_, ?_, ?_⟩
  · unfold readMultipleFilesTool
    rw [if_pos hguard]
  · unfold readMultipleFilesTool
    rw [if_pos hguard]
  · intro a ha msg hmsg
    have hr := readFileArgsOk_refine a (hok a ha)
    unfold readFileRefine at hr
    unfold slotOf readSingleFile
    rw [if_pos (hok a ha)]
    cases hmode : a.mode.getD ReadMode.full with
    | head =>
      rw [hmode] at hr
      simp only [Bool.and_eq_true] at hr
      have hjt : jsTruthyInt a.lines = true := by tauto
      simp [hjt, hmsg]
    | tail =>
      rw [hmode] at hr
      simp only [Bool.and_eq_true] at hr
      have hjt : jsTruthyInt a.lines = true := by tauto
      simp [hjt, hmsg]
    | range =>
      rw [hmode] at hr
      simp only [Bool.and_eq_true] at hr
      have hjs : jsTruthyInt a.startLine = true := by tauto
      have hje : jsTruthyInt a.endLine = true := by tauto
      simp [hjs, hje, hmsg]
    | full =>
      simp [hmsg]
  · intro a ha content hcontent
    have hr := readFileArgsOk_refine a (hok a ha)
    unfold readFileRefine at hr
    unfold slotOf readSingleFile
    rw [if_pos (hok a ha)]
    cases hmode : a.mode.getD ReadMode.full with
    | head =>
      rw [hmode] at hr
      simp only [Bool.and_eq_true] at hr
      have hjt : jsTruthyInt a.lines = true := by tauto
      simp [hjt, hcontent]
    | tail =>
      rw [hmode] at hr
      simp only [Bool.and_eq_true] at hr
      have hjt : jsTruthyInt a.lines = true := by tauto
      simp [hjt, hcontent]
    | range =>
      rw [hmode] at hr
      simp only [Bool.and_eq_true] at hr
      have hjs : jsTruthyInt a.startLine = true := by tauto
      have hje : jsTruthyInt a.endLine = true := by tauto
      simp [hjs, hje, hcontent]
    | full =>
      simp [hcontent]

theorem readMultipleFiles_batch_isolation_witness :
    readMultipleFilesTool
        (fun p => if p = "bad" then Except.error "ENOENT" else Except.ok ['x'])
        ⟨[⟨"f1", none, none, none, none⟩,
          ⟨"bad", none, none, none, none⟩,
          ⟨"f2", some ReadMode.head, some 1, none, none⟩]⟩ =
      ⟨true, [⟨"f1", some ['x'], none⟩, ⟨"bad", none, some "ENOENT"⟩,
        ⟨"f2", some ['x'], none⟩]⟩ := by
  have h := readMultipleFiles_batch_isolation
    (fun p => if p = "bad" then Except.error "ENOENT" else Except.ok ['x'])
    [⟨"f1", none, none, none, none⟩,
     ⟨"bad", none, none, none, none⟩,
     ⟨"f2", some ReadMode.head, some 1, none, none⟩]
    (by decide) (by decide) (by decide)
  calc readMultipleFilesTool
        (fun p => if p = "bad" then Except.error "ENOENT" else Except.ok ['x'])
        ⟨[⟨"f1", none, none, none, none⟩,
          ⟨"bad", none, none, none, none⟩,
          ⟨"f2", some ReadMode.head, some 1, none, none⟩]⟩ =
      ⟨(readMultipleFilesTool
          (fun p => if p = "bad" then Except.error "ENOENT" else Except.ok ['x'])
          ⟨[⟨"f1", none, none, none, none⟩,
            ⟨"bad", none, none, none, none⟩,
            ⟨"f2", some ReadMode.head, some 1, none, none⟩]⟩).success,
       (readMultipleFilesTool
          (fun p => if p = "bad" then Except.error "ENOENT" else Except.ok ['x'])
          ⟨[⟨"f1", none, none, none, none⟩,
            ⟨"bad", none, none, none, none⟩,
            ⟨"f2", some ReadMode.head, some 1, none, none⟩]⟩).results⟩ := rfl
    _ = ⟨true, [⟨"f1", some ['x'], none⟩, ⟨"bad", none, some "ENOENT"⟩,
          ⟨"f2", some ['x'], none⟩]⟩ := by
        rw [h.1, h.2.1]
        decide

/-- C10: the batch arity bound the spec does not state. A call whose files
array is empty or longer than 50 fails schema validation and returns the
batch failure `{success:false, results:[]}` without consulting the
filesystem at all (the result is identical for every filesystem); every
batch of 1 to 50 entries passes the arity check. -/
theorem readMultipleFiles_arity_bound (fs fs2 : FSModel)
    (files : List ReadFileArgs) :
    (files.length = 0 ∨ 50 < files.length →
      readMultipleFilesTool fs ⟨files⟩ = ⟨false, []⟩ ∧
      readMultipleFilesTool fs ⟨files⟩ = readMultipleFilesTool fs2 ⟨files⟩) ∧
    (1 ≤ files.length → files.length ≤ 50 →
      readMultipleFilesArityOk ⟨files⟩ = true) := by
  constructor
  · intro h
    have hg : readMultipleFilesArityOk ⟨files⟩ = false := by
      unfold readMultipleFilesArityOk
      rcases h with h | h
      · have hn : ¬ (1 ≤ files.length) := by omega
        simp [hn]
      · have hn : ¬ (files.length ≤ 50) := by omega
        simp [hn]
    constructor
    · unfold readMultipleFilesTool
      rw [hg]
      simp
    · unfold readMultipleFilesTool
      rw [hg]
      simp
  · intro h1 h2
    unfold readMultipleFilesArityOk
    simp [h1, h2]

theorem readMultipleFiles_arity_bound_witness :
    readMultipleFilesTool (fun _ => Except.ok []) ⟨[]⟩ = ⟨false, []⟩ ∧
    readMultipleFilesArityOk ⟨[⟨"a", none, none, none, none⟩]⟩ = true := by
  have h0 := readMultipleFiles_arity_bound (fun _ => Except.ok [])
    (fun _ => Except.ok []) []
  have h1 := readMultipleFiles_arity_bound (fun _ => Except.ok [])
    (fun _ => Except.ok []) [⟨"a", none, none, none, none⟩]
  exact ⟨(h0.1 (Or.inl rfl)).1, h1.2 (by decide) (by decide)⟩

/-! Priority-ordered context assembly
(thinking-validator.ts `analyzeTargetedSections`, lines 1086-1180).  The
batch reader it calls is `ToolCallingService.readMultipleFiles`
(services/tool-calling-service.ts, embedded in MCP_SERVER_TEST_REPORT.md):
an enabled-check and a per-file extension check, each failing the WHOLE
batch with `{success:false, results:[]}`, then the tool registry
(tool-registry.ts, part_006), whose `readMultipleFiles` is exactly
`readMultipleFilesTool` above, then a per-slot file-size cap that turns an
oversized content slot into an error slot.  Only the config fields this
path reads are modelled, and error-message texts that never influence
control flow are elided to constants.  Path resolution
(`isAbsolute`/`resolve` against workingDirectory/projectRoot) is the
platform's and is modelled as an abstract resolver; of the method's return
value only the `content` field is modelled. -/

/-- The `priority` enum of an Analysis Target. -/
inductive Priority
  | critical
  | important
  | supplementary
  deriving DecidableEq

/-- An Analysis Target (thinking-validation-types): a file read request plus
an optional priority. -/
structure AnalysisTarget where
  file : String
  priority : Option Priority
  mode : Option String
  lines : Option ℤ
  startLine : Option ℤ
  endLine : Option ℤ
  deriving DecidableEq

/-- The read request `analyzeTargetedSections` builds for one target: the
`mode` is a raw string at this point (the Zod enum parses it later). -/
structure SvcRequest where
  path : String
  mode : String
  lines : Option ℤ
  startLine : Option ℤ
  endLine : Option ℤ
  deriving DecidableEq

/-- JS `a || d` for an optional string: `d` when absent or empty. -/
def jsOrString (o : Option String) (d : String) : String :=
  match o with
  | none => d
  | some s => if s = "" then d else s

/-- JS truthiness of an optional string field. -/
def jsTruthyStr (o : Option String) : Bool :=
  match o with
  | none => false
  | some s => !(decide (s = ""))

/-- JS template interpolation of an optional integer (`undefined` prints as
"undefined"). -/
def optIntToString (o : Option ℤ) : String :=
  match o with
  | none => "undefined"
  | some v => toString v

/-- `t.priority === "critical"`. -/
def isCriticalTarget (t : AnalysisTarget) : Bool :=
  match t.priority with
  | some Priority.critical => true
  | _ => false

/-- `t.priority === "important" || !t.priority`. -/
def isImportantTarget (t : AnalysisTarget) : Bool :=
  match t.priority with
  | some Priority.important => true
  | none => true
  | _ => false

/-- `t.priority === "supplementary"`. -/
def isSupplementaryTarget (t : AnalysisTarget) : Bool :=
  match t.priority with
  | some Priority.supplementary => true
  | _ => false

/-- The request built for a target (thinking-validator.ts lines 1125-1139):
resolved path, `target.mode || "range"`, and the raw bounds. -/
def toRequest (resolvePath : String → String) (t : AnalysisTarget) :
    SvcRequest :=
  ⟨resolvePath t.file, jsOrString t.mode "range", t.lines, t.startLine,
    t.endLine⟩

/-- The `z.enum(["full", "head", "tail", "range"])` parse of a raw mode
string. -/
def parseMode (s : String) : Option ReadMode :=
  if s = "full" then some ReadMode.full
  else if s = "head" then some ReadMode.head
  else if s = "tail" then some ReadMode.tail
  else if s = "range" then some ReadMode.range
  else none

/-- The element-level Zod parse of one raw request: the mode string must be
one of the four enum values; the numeric fields pass through (their checks
are in `readFileArgsOk`). -/
def svcRequestToArgs (r : SvcRequest) : Option ReadFileArgs :=
  (parseMode r.mode).map fun m =>
    ⟨r.path, some m, r.lines, r.startLine, r.endLine⟩

/-- Element-wise parse of the whole request array: `none` when any mode
string is not an enum member. -/
def parseRequests : List SvcRequest → Option (List ReadFileArgs)
  | [] => some []
  | r :: rs =>
    match svcRequestToArgs r, parseRequests rs with
    | some a, some as => some (a :: as)
    | _, _ => none

/-- The tool registry's `readMultipleFiles` (tool-registry.ts, part_006)
is `readMultipleFilesTool`; a raw request whose mode string fails the enum
parse makes `ReadMultipleFilesArgsSchema.parse` throw, which that tool's
own catch turns into `{success:false, results:[]}`. -/
def registryReadMultipleFiles (fs : FSModel) (files : List SvcRequest) :
    ReadMultipleFilesResult :=
  match parseRequests files with
  | none => ⟨false, []⟩
  | some args => readMultipleFilesTool fs ⟨args⟩

/-- The fields of `ToolCallingConfig` that `readMultipleFiles` reads. -/
structure ToolCallingConfig where
  readFileEnabled : Bool
  allowedFileExtensions : List String
  maxFileSizeKB : ℚ

/-- `getFileExtension` (tool-calling-service.ts):
`filePath.split(".").pop()?.toLowerCase() || ""`, then `"." + ext` when
nonempty. -/
def getFileExtension (path : String) : String :=
  if toLowerAscii ((path.data.splitOn '.').getLastD []) = [] then ""
  else String.mk ('.' :: toLowerAscii ((path.data.splitOn '.').getLastD []))

/-- UTF-8 byte length of a content string (`Buffer.byteLength(s, "utf8")`). -/
def utf8Length (l : List Char) : ℕ :=
  l.foldl (fun n c => n + c.utf8Size) 0

/-- The size-cap error text (the source interpolates the sizes; the text
never influences control flow). -/
def fileSizeExceededMessage : String :=
  "File size exceeds maximum allowed size"

/-- The per-slot size cap of `ToolCallingService.readMultipleFiles`: a slot
with truthy content whose size in KB exceeds `maxFileSizeKB` is rewritten
in place to an error slot with its content removed. -/
def sizePost (maxKB : ℚ) (slot : FileResultSlot) : FileResultSlot :=
  match slot.content with
  | some content =>
    if content = [] then slot
    else if maxKB < (utf8Length content : ℚ) / 1024 then
      ⟨slot.path, none, some fileSizeExceededMessage⟩
    else slot
  | none => slot

/-- Return shape of `ToolCallingService.readMultipleFiles`. -/
structure SvcBatchResult where
  success : Bool
  results : List FileResultSlot
  error : Option String

/-- `ToolCallingService.readMultipleFiles` (tool-calling-service.ts,
embedded in MCP_SERVER_TEST_REPORT.md): whole-batch failure with empty
results when file reading is disabled or any request's extension is not
allowed; otherwise the registry call followed by the per-slot size cap,
under the registry's own success flag. -/
def toolCallingReadMultipleFiles (cfg : ToolCallingConfig) (fs : FSModel)
    (files : List SvcRequest) : SvcBatchResult :=
  if (!cfg.readFileEnabled) = true then
    ⟨false, [], some "File reading is disabled in configuration"⟩
  else if (files.any fun r =>
      !(cfg.allowedFileExtensions.contains (getFileExtension r.path))) = true
    then ⟨false, [], some "File extension is not allowed"⟩
  else
    ⟨(registryReadMultipleFiles fs files).success,
     (registryReadMultipleFiles fs files).results.map
       (sizePost cfg.maxFileSizeKB),
     none⟩

/-- The `**Mode/Lines**` info line (thinking-validator.ts lines
1156-1161). -/
def modeInfoLine (t : AnalysisTarget) : String :=
  if jsTruthyStr t.mode then
    "Mode: " ++ t.mode.getD "" ++
      (if jsTruthyInt t.lines then
        " (" ++ optIntToString t.lines ++ " lines)"
      else "")
  else "Lines " ++ optIntToString t.startLine ++ "-" ++
    optIntToString t.endLine

/-- The lines pushed for one target (lines 1148-1170): header with optional
CRITICAL label, optional mode info, then the fenced content when truthy or
the failure line carrying the slot's error. -/
def sectionOf (t : AnalysisTarget) (slot : FileResultSlot) : List String :=
  ["### " ++ t.file ++
    (if t.priority = some Priority.critical then " [CRITICAL]" else "")] ++
  (if jsTruthyStr t.mode || jsTruthyInt t.startLine then
    ["**" ++ modeInfoLine t ++ "**"]
  else []) ++
  (match slot.content with
   | some s =>
     if s = [] then
       ["Failed to read section: " ++ slot.error.getD "undefined" ++ "\n"]
     else ["```", String.mk s, "```\n"]
   | none =>
     ["Failed to read section: " ++ slot.error.getD "undefined" ++ "\n"])

/-- The `for (let i = 0; ...)` pairing loop (lines 1143-1171): target `i`
with result slot `i`.  On the success path the slots list always has the
group's length; the default keeps the model total. -/
def groupLoop : List AnalysisTarget → List FileResultSlot → List String
  | [], _ => []
  | t :: ts, slots =>
    sectionOf t (slots.headD ⟨"", none, none⟩) ++ groupLoop ts slots.tail

/-- One priority group's contribution (lines 1113-1172): skipped when
empty; otherwise the batch read is issued and — only under
`if (readResults.success)` — the per-target sections are pushed; a failed
batch contributes nothing. -/
def groupSections (cfg : ToolCallingConfig) (fs : FSModel)
    (resolvePath : String → String) (group : List AnalysisTarget) :
    List String :=
  if group = [] then []
  else if (toolCallingReadMultipleFiles cfg fs
      (group.map (toRequest resolvePath))).success = true then
    groupLoop group
      (toolCallingReadMultipleFiles cfg fs
        (group.map (toRequest resolvePath))).results
  else []

/-- The pushed analysis lines of `analyzeTargetedSections`: preamble, then
the critical, important (including no-priority) and supplementary groups in
that order. -/
def analysisList (cfg : ToolCallingConfig) (fs : FSModel)
    (resolvePath : String → String) (targets : List AnalysisTarget) :
    List String :=
  ["## Targeted Code Analysis",
   "*(Client-specified code sections with mode support)*\n"] ++
  groupSections cfg fs resolvePath (targets.filter isCriticalTarget) ++
  groupSections cfg fs resolvePath (targets.filter isImportantTarget) ++
  groupSections cfg fs resolvePath (targets.filter isSupplementaryTarget)

/-- The `content` field `analyzeTargetedSections` returns:
`analysis.join("\n")`. -/
def analyzeTargetedSections (cfg : ToolCallingConfig) (fs : FSModel)
    (resolvePath : String → String) (targets : List AnalysisTarget) :
    String :=
  String.intercalate "\n" (analysisList cfg fs resolvePath targets)

/-- The slot a target receives on a successful batch: its own request's
single read, post-processed by the size cap. -/
def targetSlot (maxKB : ℚ) (fs : FSModel) (resolvePath : String → String)
    (t : AnalysisTarget) : FileResultSlot :=
  match svcRequestToArgs (toRequest resolvePath t) with
  | some a => sizePost maxKB (slotOf fs a)
  | none => ⟨"", none, none⟩

theorem readMultipleFilesTool_success_results (fs : FSModel)
    (args : List ReadFileArgs)
    (h : (readMultipleFilesTool fs ⟨args⟩).success = true) :
    (readMultipleFilesTool fs ⟨args⟩).results = args.map (slotOf fs) := by
  unfold readMultipleFilesTool at h ⊢
  dsimp only at h ⊢
  by_cases hg : (readMultipleFilesArityOk ⟨args⟩ &&
      args.all readFileArgsOk) = true
  · rw [if_pos hg]
  · rw [if_neg hg] at h
    simp at h

theorem registry_success_shape (fs : FSModel) (files : List SvcRequest)
    (h : (registryReadMultipleFiles fs files).success = true) :
    ∃ args, parseRequests files = some args ∧
      (registryReadMultipleFiles fs files).results =
        args.map (slotOf fs) := by
  unfold registryReadMultipleFiles at h ⊢
  revert h
  cases hm : parseRequests files with
  | none =>
    intro h
    simp at h
  | some args =>
    intro h
    dsimp only at h ⊢
    exact ⟨args, rfl, readMultipleFilesTool_success_results fs args h⟩

theorem service_success_shape (cfg : ToolCallingConfig) (fs : FSModel)
    (files : List SvcRequest)
    (h : (toolCallingReadMultipleFiles cfg fs files).success = true) :
    ∃ args, parseRequests files = some args ∧
      (toolCallingReadMultipleFiles cfg fs files).results =
        args.map fun a => sizePost cfg.maxFileSizeKB (slotOf fs a) := by
  unfold toolCallingReadMultipleFiles at h ⊢
  by_cases he : (!cfg.readFileEnabled) = true
  · rw [if_pos he] at h
    exact absurd h (by simp)
  · rw [if_neg he] at h ⊢
    by_cases hx : (files.any fun r =>
        !(cfg.allowedFileExtensions.contains (getFileExtension r.path))) = true
    · rw [if_pos hx] at h
      exact absurd h (by simp)
    · rw [if_neg hx] at h ⊢
      dsimp only at h ⊢
      obtain ⟨args, hm, hres⟩ := registry_success_shape fs files h
      refine ⟨args, hm, ?_⟩
      rw [hres]
      simp [List.map_map, Function.comp]

theorem groupLoop_eq (maxKB : ℚ) (fs : FSModel)
    (resolvePath : String → String) :
    ∀ (g : List AnalysisTarget) (args : List ReadFileArgs),
      parseRequests (g.map (toRequest resolvePath)) = some args →
      groupLoop g (args.map fun a => sizePost maxKB (slotOf fs a)) =
        (g.map fun t =>
          sectionOf t (targetSlot maxKB fs resolvePath t)).flatten := by
  intro g
  induction g with
  | nil =>
    intro args h
    simp only [parseRequests, Option.some.injEq] at h
    subst h
    rfl
  | cons t ts ih =>
    intro args h
    rw [List.map_cons] at h
    unfold parseRequests at h
    cases ha : svcRequestToArgs (toRequest resolvePath t) with
    | none =>
      rw [ha] at h
      simp at h
    | some a =>
      rw [ha] at h
      cases hrest : parseRequests (ts.map (toRequest resolvePath)) with
      | none =>
        rw [hrest] at h
        simp at h
      | some as =>
        rw [hrest] at h
        simp only [Option.some.injEq] at h
        rw [← h, List.map_cons, groupLoop, List.headD_cons, List.tail_cons,
          ih as hrest, List.map_cons, List.flatten_cons]
        congr 1
        unfold targetSlot
        rw [ha]

/-- A nonempty group's contribution is all-or-nothing: the per-target
sections when the group's batch read succeeds, nothing at all when it
fails. -/
theorem groupSections_block (cfg : ToolCallingConfig) (fs : FSModel)
    (resolvePath : String → String) (g : List AnalysisTarget) :
    groupSections cfg fs resolvePath g =
      if (toolCallingReadMultipleFiles cfg fs
          (g.map (toRequest resolvePath))).success = true then
        (g.map fun t =>
          sectionOf t (targetSlot cfg.maxFileSizeKB fs resolvePath t)).flatten
      else [] := by
  by_cases hg : g = []
  · subst hg
    unfold groupSections
    rw [if_pos rfl]
    simp
  · unfold groupSections
    rw [if_neg hg]
    by_cases hs : (toolCallingReadMultipleFiles cfg fs
        (g.map (toRequest resolvePath))).success = true
    · rw [if_pos hs, if_pos hs]
      obtain ⟨args, hm, hres⟩ := service_success_shape cfg fs _ hs
      rw [hres]
      exact groupLoop_eq cfg.maxFileSizeKB fs resolvePath g args hm
    · rw [if_neg hs, if_neg hs]

/-- C8 counterexample: a target CAN be silently dropped.  With file reading
enabled and the `.ts` extension allowed, a single critical target that
names no mode and no bounds is defaulted to mode "range" by the assembler;
the range refine of `ReadFileArgsSchema` then rejects the batch inside the
registry, `ToolCallingService.readMultipleFiles` reports
`{success:false, results:[]}`, and the assembler's
`if (readResults.success)` guard drops the whole critical group: the output
is the bare preamble, with no section and no error text for the target —
refuting "never silently dropped". -/
theorem analyzeTargetedSections_dropped_group_cex :
    analyzeTargetedSections ⟨true, [".ts"], 1024⟩
        (fun _ => Except.ok ['x']) (fun p => p)
        [⟨"a.ts", some Priority.critical, none, none, none, none⟩] =
      String.intercalate "\n"
        ["## Targeted Code Analysis",
         "*(Client-specified code sections with mode support)*\n"] := by
  decide

/-- C8 (corrected): for every tool-calling config, filesystem, path
resolver and target list, the assembled content is the preamble followed by
the three priority buckets in order — critical, then important (targets
with no explicit priority join important), then supplementary, each bucket
keeping the targets' input order — but each bucket is all-or-nothing: when
its batch read succeeds it contributes one section per target (a target
whose own read failed still occupies its position, with the failure line
built from its error text), and when its batch read fails (reading
disabled, a disallowed extension, or a schema rejection) the whole bucket
is silently dropped.  The buckets partition the targets, and when every
nonempty bucket's batch read succeeds the original claim's conclusion
holds: one section per target in bucket order. -/
theorem analyzeTargetedSections_priority_order (cfg : ToolCallingConfig)
    (fs : FSModel) (resolvePath : String → String)
    (targets : List AnalysisTarget) :
    analyzeTargetedSections cfg fs resolvePath targets =
      String.intercalate "\n"
        (["## Targeted Code Analysis",
          "*(Client-specified code sections with mode support)*\n"] ++
          (if (toolCallingReadMultipleFiles cfg fs
              ((targets.filter isCriticalTarget).map
                (toRequest resolvePath))).success = true then
            ((targets.filter isCriticalTarget).map fun t =>
              sectionOf t
                (targetSlot cfg.maxFileSizeKB fs resolvePath t)).flatten
          else []) ++
          (if (toolCallingReadMultipleFiles cfg fs
              ((targets.filter isImportantTarget).map
                (toRequest resolvePath))).success = true then
            ((targets.filter isImportantTarget).map fun t =>
              sectionOf t
                (targetSlot cfg.maxFileSizeKB fs resolvePath t)).flatten
          else []) ++
          (if (toolCallingReadMultipleFiles cfg fs
              ((targets.filter isSupplementaryTarget).map
                (toRequest resolvePath))).success = true then
            ((targets.filter isSupplementaryTarget).map fun t =>
              sectionOf t
                (targetSlot cfg.maxFileSizeKB fs resolvePath t)).flatten
          else [])) ∧
    (targets.filter isCriticalTarget).length +
        (targets.filter isImportantTarget).length +
        (targets.filter isSupplementaryTarget).length = targets.length ∧
    ((targets.filter isCriticalTarget ≠ [] →
        (toolCallingReadMultipleFiles cfg fs
          ((targets.filter isCriticalTarget).map
            (toRequest resolvePath))).success = true) →
      (targets.filter isImportantTarget ≠ [] →
        (toolCallingReadMultipleFiles cfg fs
          ((targets.filter isImportantTarget).map
            (toRequest resolvePath))).success = true) →
      (targets.filter isSupplementaryTarget ≠ [] →
        (toolCallingReadMultipleFiles cfg fs
          ((targets.filter isSupplementaryTarget).map
            (toRequest resolvePath))).success = true) →
      analyzeTargetedSections cfg fs resolvePath targets =
        String.intercalate "\n"
          (["## Targeted Code Analysis",
            "*(Client-specified code sections with mode support)*\n"] ++
            ((targets.filter isCriticalTarget ++
              targets.filter isImportantTarget ++
              targets.filter isSupplementaryTarget).map fun t =>
                sectionOf t
                  (targetSlot cfg.maxFileSizeKB fs resolvePath t)).flatten)) ∧
    (∀ t slot, slot.content = none →
      sectionOf t slot ≠ [] ∧
      ("Failed to read section: " ++ slot.error.getD "undefined" ++ "\n")
        ∈ sectionOf t slot) := by
  have hA : analyzeTargetedSections cfg fs resolvePath targets =
      String.intercalate "\n"
        (["## Targeted Code Analysis",
          "*(Client-specified code sections with mode support)*\n"] ++
          (if (toolCallingReadMultipleFiles cfg fs
              ((targets.filter isCriticalTarget).map
                (toRequest resolvePath))).success = true then
            ((targets.filter isCriticalTarget).map fun t =>
              sectionOf t
                (targetSlot cfg.maxFileSizeKB fs resolvePath t)).flatten
          else []) ++
          (if (toolCallingReadMultipleFiles cfg fs
              ((targets.filter isImportantTarget).map
                (toRequest resolvePath))).success = true then
            ((targets.filter isImportantTarget).map fun t =>
              sectionOf t
                (targetSlot cfg.maxFileSizeKB fs resolvePath t)).flatten
          else []) ++
          (if (toolCallingReadMultipleFiles cfg fs
              ((targets.filter isSupplementaryTarget).map
                (toRequest resolvePath))).success = true then
            ((targets.filter isSupplementaryTarget).map fun t =>
              sectionOf t
                (targetSlot cfg.maxFileSizeKB fs resolvePath t)).flatten
          else [])) := by
    unfold analyzeTargetedSections analysisList
    rw [groupSections_block, groupSections_block, groupSections_block]
  have hbucket : ∀ g : List AnalysisTarget,
      (g ≠ [] → (toolCallingReadMultipleFiles cfg fs
        (g.map (toRequest resolvePath))).success = true) →
      (if (toolCallingReadMultipleFiles cfg fs
          (g.map (toRequest resolvePath))).success = true then
        (g.map fun t =>
          sectionOf t (targetSlot cfg.maxFileSizeKB fs resolvePath t)).flatten
      else []) =
        (g.map fun t =>
          sectionOf t (targetSlot cfg.maxFileSizeKB fs resolvePath t)).flatten
      := by
    intro g hgs
    by_cases hg : g = []
    · subst hg
      simp
    · rw [if_pos (hgs hg)]
  have hpart : ∀ ts : List AnalysisTarget,
      (ts.filter isCriticalTarget).length +
          (ts.filter isImportantTarget).length +
          (ts.filter isSupplementaryTarget).length = ts.length := by
    intro ts
    induction ts with
    | nil => rfl
    | cons t ts ih =>
      cases hp : t.priority with
      | none =>
        simp only [List.filter_cons, isCriticalTarget, isImportantTarget,
          isSupplementaryTarget, hp, Bool.false_eq_true, if_true, if_false,
          List.length_cons]
        omega
      | some p =>
        cases p <;>
          (simp only [List.filter_cons, isCriticalTarget, isImportantTarget,
            isSupplementaryTarget, hp, Bool.false_eq_true, if_true, if_false,
            List.length_cons]
           omega)
  refine ⟨hA, hpart targets, ?_, ?_⟩
  · intro hc hi hsu
    rw [hA, hbucket _ hc, hbucket _ hi, hbucket _ hsu]
    congr 1
    simp [List.map_append, List.flatten_append, List.append_assoc]
  · intro t slot h
    constructor
    · intro hc
      unfold sectionOf at hc
      simp at hc
    · unfold sectionOf
      rw [h]
      simp

def exampleCfg : ToolCallingConfig := ⟨true, [".ts"], 1024⟩

/-- A filesystem on which every read fails. -/
def exampleFs : FSModel := fun _ => Except.error "ENOENT"

def exampleTargetA : AnalysisTarget :=
  ⟨"A.ts", some Priority.supplementary, some "head", some 5, none, none⟩

def exampleTargetB : AnalysisTarget :=
  ⟨"B.ts", some Priority.critical, some "head", some 5, none, none⟩

def exampleTargetC : AnalysisTarget :=
  ⟨"C.ts", some Priority.important, some "head", some 5, none, none⟩

theorem analyzeTargetedSections_priority_order_witness :
    analyzeTargetedSections exampleCfg exampleFs (fun p => p)
        [exampleTargetA, exampleTargetB, exampleTargetC] =
      String.intercalate "\n"
        (["## Targeted Code Analysis",
          "*(Client-specified code sections with mode support)*\n"] ++
          (([exampleTargetB, exampleTargetC, exampleTargetA]).map fun t =>
            sectionOf t
              (targetSlot exampleCfg.maxFileSizeKB exampleFs (fun p => p)
                t)).flatten) := by
  have h := analyzeTargetedSections_priority_order exampleCfg exampleFs
    (fun p => p) [exampleTargetA, exampleTargetB, exampleTargetC]
  exact (h.2.2.1 (fun _ => by decide) (fun _ => by decide)
    (fun _ => by decide)).trans (by decide)

end AthenaProtocol
